import Mathlib

/-!
Verification development for the Azul practice engine (Rust crate `engine`).

The Rust sources are shallowly embedded:

* machine integers (`u8`, `u32`, `u64`, `usize`, `i32`) become `Nat`/`Int`;
  where the source performs `u8` arithmetic that can wrap in release builds,
  the embedding applies an explicit `% 256` (debug builds would abort there
  instead; all verified properties stay inside the non-wrapping range);
* `f64`/`f32` quantities in the evaluator are exact means and sums of small
  integers in every verified statement, so they are embedded as `Rat`
  (integer-valued heuristic scores as `Int`); the `f32` greedy ratio of a
  mixed policy is embedded as a 24-bit fixed-point threshold;
* Rust `HashMap<TileColor, u8>` multisets become functions
  `TileColor → Nat`; a map's (unspecified) iteration order is made explicit
  as a `List TileColor` parameter `ord` wherever the source iterates a map
  (`list_legal_actions`); zero-count entries, which the engine's own code
  paths never create, are identified with absent keys;
* `rand::StdRng` is embedded as an abstract deterministic stream
  `Nat → Nat → Nat` (seed, then draw index, to a raw draw);
  `rand::thread_rng()` inside `refill_factories` is an arbitrary stream
  `Nat → Nat` supplied by the environment;
* fallible code returns `Except`/`Option`; a Rust `expect`/index abort with
  no error channel is modelled as `Option.none`;
* the evaluator is embedded with the `wasm32` timing semantics of the source
  (no clock: the time-budget check is compiled out, `elapsed_ms = 0`), the
  deterministic configuration of the two targets.
-/

namespace AzulEngine

/-- The 5 tile colors (src/model/types.rs, `TileColor`). -/
inductive TileColor
  | blue
  | yellow
  | red
  | black
  | white
deriving DecidableEq, Repr

/-- Canonical fixed color order (src/rules/constants.rs `ALL_COLORS` and the
wall-table row 0; Blue, Yellow, Red, Black, White). -/
def ALL_COLORS : List TileColor :=
  [TileColor.blue, TileColor.yellow, TileColor.red, TileColor.black, TileColor.white]

/-- Tile multiset (src/model/state.rs `TileMultiset = HashMap<TileColor,u8>`)
as its content function; zero counts are identified with absent keys. -/
abbrev TileMultiset := TileColor → Nat

/-- The empty multiset. -/
def msetZero : TileMultiset := fun _ => 0

/-- Overwrite one color's count. -/
def msetSet (m : TileMultiset) (c : TileColor) (n : Nat) : TileMultiset :=
  fun c' => if c' = c then n else m c'

/-- Pointwise sum of two multisets. -/
def msetPlus (a b : TileMultiset) : TileMultiset := fun c => a c + b c

/-- Total count over the 5 colors (`values().sum()` on an exact integer). -/
def msetCount (m : TileMultiset) : Nat := (ALL_COLORS.map m).sum

/-- Total count as computed into a `u8` accumulator (wraps in release). -/
def msetCount8 (m : TileMultiset) : Nat := msetCount m % 256

/-- Emptiness test (`HashMap::is_empty`; zero-count entries, which the
engine's code paths never create, are identified with absent keys). -/
def msetIsEmpty (m : TileMultiset) : Bool := msetCount m = 0

/-- A pattern line row (src/model/player.rs `PatternLine`). -/
structure PatternLine where
  capacity : Nat
  color : Option TileColor
  count_filled : Nat
deriving DecidableEq, Repr

/-- The empty pattern line for a given row index (`PatternLine::new`). -/
def PatternLine.new (row_index : Nat) : PatternLine :=
  { capacity := row_index + 1, color := none, count_filled := 0 }

/-- The 5×5 wall of filled flags (src/model/player.rs `Wall = [[bool;5];5]`),
as a list of rows. -/
abbrev Wall := List (List Bool)

/-- Read a wall cell; out-of-range reads (impossible for the Rust array type)
default to `false`. -/
def wallGet (w : Wall) (row col : Nat) : Bool := (w.getD row []).getD col false

/-- Write a wall cell. -/
def wallSet (w : Wall) (row col : Nat) (b : Bool) : Wall :=
  w.set row ((w.getD row []).set col b)

/-- The all-empty wall. -/
def emptyWall : Wall := List.replicate 5 (List.replicate 5 false)

/-- Floor line (src/model/player.rs `FloorLine`). -/
structure FloorLine where
  tiles : List TileColor
  has_first_player_token : Bool
deriving DecidableEq, Repr

/-- A player's board (src/model/player.rs `PlayerBoard`). -/
structure PlayerBoard where
  score : Int
  pattern_lines : List PatternLine
  wall : Wall
  floor_line : FloorLine
deriving DecidableEq, Repr

/-- A fresh board (`PlayerBoard::new`). -/
def PlayerBoard.new : PlayerBoard :=
  { score := 0
    pattern_lines :=
      [PatternLine.new 0, PatternLine.new 1, PatternLine.new 2,
       PatternLine.new 3, PatternLine.new 4]
    wall := emptyWall
    floor_line := { tiles := [], has_first_player_token := false } }

/-- Center area (src/model/state.rs `CenterArea`). -/
structure CenterArea where
  tiles : TileMultiset
  has_first_player_token : Bool

/-- Game state (src/model/state.rs `State`). Pure metadata fields that no
embedded operation reads or writes (`state_version`, `ruleset_id`,
`scenario_seed`, `draft_phase_progress`) are omitted. -/
structure State where
  active_player_id : Nat
  round_number : Nat
  bag : TileMultiset
  lid : TileMultiset
  factories : List TileMultiset
  center : CenterArea
  players : List PlayerBoard

/-- Source of a draft action (src/model/action.rs `ActionSource`). -/
inductive ActionSource
  | factory (idx : Nat)
  | center
deriving DecidableEq, Repr

/-- Destination of a draft action (src/model/action.rs `Destination`). -/
inductive Destination
  | patternLine (row : Nat)
  | floor
deriving DecidableEq, Repr

/-- A draft action (src/model/action.rs `DraftAction`). -/
structure DraftAction where
  source : ActionSource
  color : TileColor
  destination : Destination
deriving DecidableEq, Repr

/-- Wall column for a (row, color) pair (src/rules/wall_utils.rs
`get_wall_column_for_color`). A row index of 5 or more aborts in Rust and is
never reached by the engine; it is mapped to 0 here. -/
def get_wall_column_for_color (row : Nat) (color : TileColor) : Nat :=
  match row, color with
  | 0, .blue => 0
  | 0, .yellow => 1
  | 0, .red => 2
  | 0, .black => 3
  | 0, .white => 4
  | 1, .white => 0
  | 1, .blue => 1
  | 1, .yellow => 2
  | 1, .red => 3
  | 1, .black => 4
  | 2, .black => 0
  | 2, .white => 1
  | 2, .blue => 2
  | 2, .yellow => 3
  | 2, .red => 4
  | 3, .red => 0
  | 3, .black => 1
  | 3, .white => 2
  | 3, .blue => 3
  | 3, .yellow => 4
  | 4, .yellow => 0
  | 4, .red => 1
  | 4, .black => 2
  | 4, .white => 3
  | 4, .blue => 4
  | _, _ => 0

/-- Placement-legality check (src/rules/legality.rs
`can_place_in_pattern_line`): line not complete, color consistent, no wall
conflict. -/
def can_place_in_pattern_line (player : PlayerBoard) (row : Nat) (color : TileColor) : Bool :=
  let pattern_line := player.pattern_lines.getD row (PatternLine.new 0)
  if pattern_line.count_filled = pattern_line.capacity then false
  else if pattern_line.count_filled > 0 ∧ (∃ ec, pattern_line.color = some ec ∧ ec ≠ color) then
    false
  else
    let wall_col := get_wall_column_for_color row color
    ! wallGet player.wall row wall_col

/-- Actions generated for one (source, color) pair with a positive count:
pattern-line rows 0..4 passing the placement check, then Floor
(src/rules/legality.rs, the two inner loops of `list_legal_actions`). -/
def colorActions (player : PlayerBoard) (src : ActionSource) (color : TileColor) :
    List DraftAction :=
  (((List.range 5).filter (fun row => can_place_in_pattern_line player row color)).map
    (fun row => ⟨src, color, Destination.patternLine row⟩))
  ++ [⟨src, color, Destination.floor⟩]

/-- Actions for one tile source: the source's map is iterated in the order
`ord`, keeping colors with positive count (`for (&color, &count) in
factory.iter() { if count > 0 { ... } }`). The Rust `HashMap` iteration
order is unspecified, so it is an explicit parameter here. -/
def sourceActions (player : PlayerBoard) (src : ActionSource) (m : TileMultiset)
    (ord : List TileColor) : List DraftAction :=
  ord.flatMap (fun color => if m color > 0 then colorActions player src color else [])

/-- Legal-action enumeration (src/rules/legality.rs `list_legal_actions`):
factories in index order, then the center; within a source the map's
iteration order `ord`; within a color rows 0..4 then Floor. -/
def list_legal_actions (ord : List TileColor) (s : State) (player_id : Nat) :
    List DraftAction :=
  let player := s.players.getD player_id PlayerBoard.new
  (s.factories.enum.flatMap (fun p => sourceActions player (.factory p.1) p.2 ord))
  ++ sourceActions player .center s.center.tiles ord

/-- An iteration order a `HashMap` over the 5 colors can actually produce:
each key at most once, every key listed. -/
def HashOrder (ord : List TileColor) : Prop := ord.Nodup ∧ ∀ c ∈ ALL_COLORS, c ∈ ord

/-- Validation errors of `apply_action` (src/rules/error.rs
`ValidationError`); the stable `code` strings become constructors carrying
the same context data, human-readable `message` strings are dropped. -/
inductive ValidationError
  | invalidSource (factory_idx : Nat)
  | sourceEmpty (source : ActionSource) (color : TileColor)
  | colorMismatch (row : Nat) (existing attempted : TileColor)
  | wallConflict (row : Nat) (color : TileColor)
  | patternLineComplete (row : Nat)
  | invalidDestination (row : Nat)
deriving DecidableEq, Repr

/-- Destination validation of `apply_action` (src/rules/apply.rs, the match
on `action.destination` in step 1): `none` means the destination is
accepted. The error order mirrors the source: complete line, then color
mismatch, then wall conflict. -/
def validateDestination (player : PlayerBoard) (a : DraftAction) : Option ValidationError :=
  match a.destination with
  | .patternLine row =>
    if row ≥ 5 then some (.invalidDestination row)
    else if can_place_in_pattern_line player row a.color then none
    else
      let pattern_line := player.pattern_lines.getD row (PatternLine.new 0)
      if pattern_line.count_filled = pattern_line.capacity then
        some (.patternLineComplete row)
      else if pattern_line.count_filled > 0 ∧ pattern_line.color ≠ some a.color then
        some (.colorMismatch row (pattern_line.color.getD a.color) a.color)
      else if wallGet player.wall row (get_wall_column_for_color row a.color) then
        some (.wallConflict row a.color)
      else none
  | .floor => none

/-- Step 6 of `apply_action` (src/rules/apply.rs): tile placement with
overflow to the floor. The `u8` subtraction `capacity - count_filled` and
the `u8` addition wrap mod 256 (release semantics). -/
def applyPlaceTiles (a : DraftAction) (tile_count : Nat) (p : PlayerBoard) : PlayerBoard :=
  match a.destination with
  | .patternLine row =>
    let pattern_line := p.pattern_lines.getD row (PatternLine.new 0)
    let space_available :=
      (pattern_line.capacity + 256 - pattern_line.count_filled % 256) % 256
    let tiles_to_place := min tile_count space_available
    let overflow := tile_count - tiles_to_place
    let pl' := { pattern_line with
      count_filled := (pattern_line.count_filled + tiles_to_place) % 256
      color := if (pattern_line.count_filled + tiles_to_place) % 256 > 0 then
          some a.color
        else pattern_line.color }
    { p with
      pattern_lines := p.pattern_lines.set row pl'
      floor_line := { p.floor_line with
        tiles := p.floor_line.tiles ++ List.replicate overflow a.color } }
  | .floor =>
    { p with floor_line := { p.floor_line with
        tiles := p.floor_line.tiles ++ List.replicate tile_count a.color } }

/-- Steps 5-6 of `apply_action` (src/rules/apply.rs) on the acting board:
token to the floor line when taken, then tile placement. -/
def applyPlace (a : DraftAction) (takesToken : Bool) (tile_count : Nat)
    (p0 : PlayerBoard) : PlayerBoard :=
  applyPlaceTiles a tile_count
    (if takesToken then
      { p0 with floor_line := { p0.floor_line with has_first_player_token := true } }
    else p0)

/-- Steps 3-7 of `apply_action` (src/rules/apply.rs) after validation:
remove the taken color, spill factory remnants to the center, transfer the
token, place the tiles, toggle the active player (`1 - active_player_id` on
a `u8`). -/
def applyMutate (s : State) (a : DraftAction) (tile_count : Nat) : State :=
  let factories1 :=
    match a.source with
    | .factory idx => s.factories.set idx msetZero
    | .center => s.factories
  let centerTiles1 :=
    match a.source with
    | .factory idx => msetPlus s.center.tiles (msetSet (s.factories.getD idx msetZero) a.color 0)
    | .center => msetSet s.center.tiles a.color 0
  let takesToken := decide (a.source = ActionSource.center) && s.center.has_first_player_token
  let centerToken1 := if takesToken then false else s.center.has_first_player_token
  { s with
    factories := factories1
    center := { tiles := centerTiles1, has_first_player_token := centerToken1 }
    players := s.players.set s.active_player_id
      (applyPlace a takesToken tile_count (s.players.getD s.active_player_id PlayerBoard.new))
    active_player_id := (257 - s.active_player_id % 256) % 256 }

/-- Apply a draft action (src/rules/apply.rs `apply_action`), release
semantics: the debug-only tile-conservation recheck of step 8 is compiled
out (the preservation theorem below shows it could never fire on a
conserving state). -/
def apply_action (s : State) (a : DraftAction) : Except ValidationError State :=
  let player := s.players.getD s.active_player_id PlayerBoard.new
  -- step 1: validate the source and read the taken count
  let srcCount : Except ValidationError Nat :=
    match a.source with
    | .factory idx =>
      if idx ≥ s.factories.length then .error (.invalidSource idx)
      else .ok ((s.factories.getD idx msetZero) a.color)
    | .center => .ok (s.center.tiles a.color)
  match srcCount with
  | .error e => .error e
  | .ok tile_count =>
    if tile_count = 0 then .error (.sourceEmpty a.source a.color)
    else
      match validateDestination player a with
      | some e => .error e
      | none => .ok (applyMutate s a tile_count)

/-- Tiles held by one player board (src/rules/invariants.rs
`check_tile_conservation`, per-player block): pattern lines, wall cells,
floor line. -/
def playerTiles (p : PlayerBoard) : Nat :=
  (p.pattern_lines.map (·.count_filled)).sum
  + (p.wall.map (fun row => (row.filter id).length)).sum
  + p.floor_line.tiles.length

/-- Total number of tiles in a state (src/rules/invariants.rs
`check_tile_conservation`): bag, lid, factories, center, players. -/
def tileTotal (s : State) : Nat :=
  msetCount s.bag + msetCount s.lid + (s.factories.map msetCount).sum
  + msetCount s.center.tiles + (s.players.map playerTiles).sum

/-- Tile conservation holds when the total is exactly 100
(src/rules/invariants.rs `check_tile_conservation`). -/
def check_tile_conservation (s : State) : Bool := tileTotal s = 100

/-- Floor penalty slot values (src/rules/constants.rs `FLOOR_PENALTIES`). -/
def FLOOR_PENALTIES : List Int := [-1, -1, -2, -2, -2, -3, -3]

/-- Adjacency score for a freshly placed wall tile (src/rules/scoring.rs
`calculate_wall_tile_score`). The four Rust scan loops count contiguous
filled cells left/right of `col` and above/below `row` until the first gap. -/
def calculate_wall_tile_score (wall : Wall) (row col : Nat) : Int :=
  let rowCells := wall.getD row []
  let colCells := wall.map (fun r => r.getD col false)
  let h_count := 1 + ((rowCells.take col).reverse.takeWhile id).length
      + ((rowCells.drop (col + 1)).takeWhile id).length
  let v_count := 1 + ((colCells.take row).reverse.takeWhile id).length
      + ((colCells.drop (row + 1)).takeWhile id).length
  if h_count = 1 ∧ v_count = 1 then 1
  else (if h_count > 1 then (h_count : Int) else 0) + (if v_count > 1 then (v_count : Int) else 0)

/-- Floor penalty of a floor line (src/rules/scoring.rs
`calculate_floor_penalty`): the token, when present, consumes slot 0, then
tiles fill slots until the 7 penalty slots run out. -/
def calculate_floor_penalty (floor_line : FloorLine) : Int :=
  let (start, slot0) : Int × Nat :=
    if floor_line.has_first_player_token then (FLOOR_PENALTIES.getD 0 0, 1) else (0, 0)
  let tiles_to_count := min floor_line.tiles.length (7 - slot0)
  start + ((List.range tiles_to_count).map (fun i => FLOOR_PENALTIES.getD (slot0 + i) 0)).sum

/-- Apply floor penalties to both players (src/rules/scoring.rs
`apply_floor_penalties`): each score becomes `max 0 (score + penalty)`. -/
def apply_floor_penalties (s : State) : State :=
  { s with players := s.players.map (fun player =>
      { player with score := max 0 (player.score + calculate_floor_penalty player.floor_line) }) }

/-- Resolve one pattern-line row of one player during end-of-round
(src/rules/resolution.rs `resolve_pattern_lines`, loop body). Returns the
updated lid and board; `none` is the Rust `expect` abort on a complete line
with no color. A complete line whose wall cell is already filled is reset
with no placement and no scoring. The `capacity - 1` discard count is `u8`
arithmetic (wrapping in release). -/
def resolveRow (lid : TileMultiset) (player : PlayerBoard) (row : Nat) :
    Option (TileMultiset × PlayerBoard) :=
  let pattern_line := player.pattern_lines.getD row (PatternLine.new 0)
  if pattern_line.count_filled = pattern_line.capacity then
    match pattern_line.color with
    | none => none
    | some color =>
      let col := get_wall_column_for_color row color
      if wallGet player.wall row col then
        some (lid, { player with
          pattern_lines := player.pattern_lines.set row
            { pattern_line with count_filled := 0, color := none } })
      else
        let wall' := wallSet player.wall row col true
        let points := calculate_wall_tile_score wall' row col
        let tiles_to_discard := (pattern_line.capacity + 255) % 256
        some (msetSet lid color (lid color + tiles_to_discard),
          { player with
            wall := wall'
            score := player.score + points
            pattern_lines := player.pattern_lines.set row
              { pattern_line with count_filled := 0, color := none } })
  else some (lid, player)

/-- Resolve rows 0..4 of one player (src/rules/resolution.rs, inner loop). -/
def resolvePlayer (lid : TileMultiset) (player : PlayerBoard) :
    Option (TileMultiset × PlayerBoard) :=
  [0, 1, 2, 3, 4].foldl
    (fun acc row => acc.bind (fun (l, p) => resolveRow l p row))
    (some (lid, player))

/-- Resolve all complete pattern lines of both players
(src/rules/resolution.rs `resolve_pattern_lines`). -/
def resolve_pattern_lines (s : State) : Option State :=
  [0, 1].foldl
    (fun acc player_idx => acc.bind (fun st =>
      (resolvePlayer st.lid (st.players.getD player_idx PlayerBoard.new)).map
        (fun (l, p) => { st with lid := l, players := st.players.set player_idx p })))
    (some s)

/-- Game-end test (src/rules/end_of_round.rs `check_game_end`): some player
has a fully filled wall row. -/
def check_game_end (s : State) : Bool :=
  s.players.any (fun player => player.wall.any (fun row => row.all id))

/-- Draw one tile from the bag (src/rules/refill.rs
`draw_random_tile_from_bag`), scanning the fixed `ALL_COLORS` order: the
inner loop after the `gen_range` draw. -/
def drawScan : List TileColor → Nat → TileMultiset → Option (TileColor × TileMultiset)
  | [], _, _ => none
  | c :: rest, target, bag =>
    let count := bag c
    if count = 0 then drawScan rest target bag
    else if target < count then some (c, msetSet bag c (count - 1))
    else drawScan rest (target - count) bag

/-- Draw one tile (src/rules/refill.rs `draw_random_tile_from_bag`): the
`u8` bag total, one `gen_range(0..total)` draw from stream `r` at index
`i`, then the fixed-order scan. Returns the outcome and the next stream
index. -/
def draw_random_tile_from_bag (bag : TileMultiset) (r : Nat → Nat) (i : Nat) :
    Option (TileColor × TileMultiset) × Nat :=
  let total := msetCount8 bag
  if total = 0 then (none, i)
  else (drawScan ALL_COLORS (r i % total) bag, i + 1)

/-- The drawing loop of the refill (src/rules/refill.rs
`refill_factories_with_rng`, the fill loop): draw 4 tiles for each of 5
factories, stopping (per factory) when the bag empties. An empty-bag draw
consumes no stream value, so the Rust inner `break` and continuing the loop
coincide. -/
def refillFill (r : Nat → Nat) (bag0 : TileMultiset) (factories0 : List TileMultiset) :
    TileMultiset × List TileMultiset × Nat :=
  (List.range 5).foldl
    (fun (acc : TileMultiset × List TileMultiset × Nat) factory_idx =>
      (List.range 4).foldl
        (fun (acc2 : TileMultiset × List TileMultiset × Nat) _ =>
          let (bag, facs, i) := acc2
          match draw_random_tile_from_bag bag r i with
          | (some (color, bag'), i') =>
            let f := facs.getD factory_idx msetZero
            (bag', facs.set factory_idx (msetSet f color (f color + 1)), i')
          | (none, i') => (bag, facs, i'))
        acc)
    (bag0, factories0, 0)

/-- The assembled refill (src/rules/refill.rs `refill_factories_with_rng`,
continued): the drawing loop `refillFill` runs on the cleared factories and
the possibly lid-drained bag. -/
def refill_factories_with_rng (r : Nat → Nat) (s : State) : State :=
  let factories0 := s.factories.map (fun _ => msetZero)
  let needDrain := msetCount8 s.bag < 20
  let bag0 := if needDrain then msetPlus s.bag s.lid else s.bag
  let lid0 := if needDrain then msetZero else s.lid
  let fill := refillFill r bag0 factories0
  { s with
    bag := fill.1
    lid := lid0
    factories := fill.2.1
    center := { tiles := msetZero, has_first_player_token := s.center.has_first_player_token } }

/-- The cleanup phase of end-of-round resolution (src/rules/end_of_round.rs
`resolve_end_of_round`, phase 2): determine the next first player from the
token flags (seat 0 preferred, falling back to the current active player),
discard floor tiles to the lid, clear floor lines and their token flags,
return the token to the center, and set the active player. -/
def endOfRoundCleanup (s2 : State) : State :=
  let next_first_player :=
    if (s2.players.getD 0 PlayerBoard.new).floor_line.has_first_player_token then 0
    else if (s2.players.getD 1 PlayerBoard.new).floor_line.has_first_player_token then 1
    else s2.active_player_id
  let lid' := s2.players.foldl
    (fun l player => player.floor_line.tiles.foldl
      (fun l' color => msetSet l' color (l' color + 1)) l)
    s2.lid
  { s2 with
    lid := lid'
    players := s2.players.map (fun player =>
      { player with floor_line := { tiles := [], has_first_player_token := false } })
    center := { s2.center with has_first_player_token := true }
    active_player_id := next_first_player }

/-- End-of-round resolution (src/rules/end_of_round.rs
`resolve_end_of_round`): pattern lines, floor penalties, cleanup, game-end
check, then round increment and refill. The refill runs on
`rand::thread_rng()`, embedded as the arbitrary stream `r`; `none` is the
abort inside `resolve_pattern_lines`. -/
def resolve_end_of_round (r : Nat → Nat) (s : State) : Option State :=
  (resolve_pattern_lines s).map (fun s1 =>
    let s3 := endOfRoundCleanup (apply_floor_penalties s1)
    if check_game_end s3 then s3
    else refill_factories_with_rng r { s3 with round_number := (s3.round_number + 1) % 256 })

/-- Policy mix for rollout seats (src/rules/mod.rs `PolicyMix`). The mixed
variant's `f32` greedy ratio in `[0,1]` is embedded as a 24-bit fixed-point
threshold compared against a raw draw. -/
inductive PolicyMix
  | allRandom
  | allGreedy
  | mixed (greedy_threshold : Nat)
deriving DecidableEq, Repr

/-- Rollout errors (src/rules/rollout.rs `RolloutError`); message strings
become the context data they carried. -/
inductive RolloutError
  | deadlock (player_id : Nat)
  | policyFailure (player_id : Nat)
  | illegalAction (e : ValidationError)
  | maxActionsExceeded
deriving DecidableEq, Repr

/-- Rollout configuration (src/rules/rollout.rs `RolloutConfig`). -/
structure RolloutConfig where
  active_player_policy : PolicyMix
  opponent_policy : PolicyMix
  seed : Nat
  max_actions : Nat
deriving Repr

/-- Rollout output (src/rules/rollout.rs `RolloutResult`). -/
structure RolloutResult where
  final_state : State
  player_0_score : Int
  player_1_score : Int
  actions_simulated : Nat
  completed_normally : Bool

/-- Round-complete test (src/rules/rollout.rs `is_round_complete`): all
factories and the center multiset empty; the token may remain. -/
def is_round_complete (s : State) : Bool :=
  s.factories.all (fun factory => msetIsEmpty factory) && msetIsEmpty s.center.tiles

/-- Uniform selection (src/rules/policy.rs `RandomPolicy`): `choose` draws
one index when the slice is non-empty and consumes nothing otherwise. -/
def randomPolicySelect (legal_actions : List DraftAction) (g : Nat → Nat) (i : Nat) :
    Option DraftAction × Nat :=
  match legal_actions with
  | [] => (none, i)
  | _ => (some (legal_actions.getD (g i % legal_actions.length) ⟨.center, .blue, .floor⟩), i + 1)

/-- Count the tiles an action takes (src/rules/policy.rs
`count_tiles_in_source`). -/
def policyCountTiles (s : State) (a : DraftAction) : Nat :=
  match a.source with
  | .factory idx => (s.factories.getD idx msetZero) a.color
  | .center => s.center.tiles a.color

/-- Greedy heuristic score of an action (src/rules/policy.rs
`GreedyPolicy::score_action`): 10 per tile taken, 100 for a pattern line,
5 per empty space, 15 for extending a same-color partial line. -/
def score_action (s : State) (a : DraftAction) : Int :=
  let tile_count := policyCountTiles s a
  let base : Int := (tile_count : Int) * 10
  match a.destination with
  | .patternLine row =>
    let player := s.players.getD s.active_player_id PlayerBoard.new
    let pattern_line := player.pattern_lines.getD row (PatternLine.new 0)
    let empty_spaces : Int := (pattern_line.capacity : Int) - (pattern_line.count_filled : Int)
    base + 100 + empty_spaces * 5
      + (if pattern_line.count_filled > 0 ∧ pattern_line.color = some a.color then 15 else 0)
  | .floor => base

/-- Greedy selection (src/rules/policy.rs `GreedyPolicy::select_action`):
score all actions, keep the maximum scorers, break ties with one draw. -/
def greedyPolicySelect (s : State) (legal_actions : List DraftAction) (g : Nat → Nat)
    (i : Nat) : Option DraftAction × Nat :=
  match legal_actions with
  | [] => (none, i)
  | _ =>
    let scored := legal_actions.map (fun a => (score_action s a, a))
    let max_score := (scored.map (·.1)).max?.getD 0
    let best_actions := (scored.filter (fun p => p.1 = max_score)).map (·.2)
    (some (best_actions.getD (g i % best_actions.length) ⟨.center, .blue, .floor⟩), i + 1)

/-- Select one action under a policy mix (src/rules/rollout.rs
`select_action_with_policy`); a mixed policy consumes one extra draw for
the greedy-ratio coin. -/
def select_action_with_policy (s : State) (legal_actions : List DraftAction)
    (policy_mix : PolicyMix) (g : Nat → Nat) (i : Nat) : Option DraftAction × Nat :=
  match policy_mix with
  | .allRandom => randomPolicySelect legal_actions g i
  | .allGreedy => greedyPolicySelect s legal_actions g i
  | .mixed thr =>
    let use_greedy := g i % 16777216 < thr
    if use_greedy then greedyPolicySelect s legal_actions g (i + 1)
    else randomPolicySelect legal_actions g (i + 1)

/-- The drafting loop of `simulate_rollout` (src/rules/rollout.rs, step 2).
`fuel` only bounds the recursion: the top-level call passes
`max_actions + 1`, and the `n ≥ max_actions` guard fires strictly before
the fuel can run out, so the fuel-exhaustion branch is unreachable there. -/
def rolloutLoop (ord : List TileColor) (g : Nat → Nat) (cfg : RolloutConfig) :
    Nat → State → Nat → Nat → Except RolloutError (State × Nat)
  | 0, _, _, _ => .error .maxActionsExceeded
  | fuel + 1, s, actions_simulated, i =>
    if is_round_complete s then .ok (s, actions_simulated)
    else if actions_simulated ≥ cfg.max_actions then .error .maxActionsExceeded
    else
      let legal_actions := list_legal_actions ord s s.active_player_id
      match legal_actions with
      | [] => .error (.deadlock s.active_player_id)
      | _ =>
        let policy_mix :=
          if s.active_player_id = 0 then cfg.active_player_policy else cfg.opponent_policy
        match select_action_with_policy s legal_actions policy_mix g i with
        | (none, _) => .error (.policyFailure s.active_player_id)
        | (some action, i') =>
          match apply_action s action with
          | .error e => .error (.illegalAction e)
          | .ok s' => rolloutLoop ord g cfg fuel s' (actions_simulated + 1) i'

/-- Simulate the rest of a round (src/rules/rollout.rs `simulate_rollout`):
seed the stream from `config.seed`, run the drafting loop, then resolve the
end of round (whose factory refill draws from the thread stream `r`). `none`
is an abort inside end-of-round resolution. -/
def simulate_rollout (std : Nat → Nat → Nat) (ord : List TileColor) (r : Nat → Nat)
    (initial_state : State) (config : RolloutConfig) :
    Option (Except RolloutError RolloutResult) :=
  match rolloutLoop ord (std config.seed) config (config.max_actions + 1) initial_state 0 0 with
  | .error e => some (.error e)
  | .ok (s1, actions_simulated) =>
    match resolve_end_of_round r s1 with
    | none => none
    | some s2 => some (.ok
      { final_state := s2
        player_0_score := (s2.players.getD 0 PlayerBoard.new).score
        player_1_score := (s2.players.getD 1 PlayerBoard.new).score
        actions_simulated := actions_simulated
        completed_normally := true })

/-- Per-action statistics (src/rules/feedback.rs `ActionFeatures`);
`expected_adjacency_points` is emitted but always left at 0 by the source. -/
structure ActionFeatures where
  expected_floor_penalty : Rat
  expected_completions : Rat
  expected_adjacency_points : Rat
  expected_tiles_to_floor : Rat
  takes_first_player_token : Bool
  tiles_acquired : Nat
deriving DecidableEq, Repr

/-- Default features (src/rules/feedback.rs `ActionFeatures::default`). -/
def ActionFeatures.zero : ActionFeatures :=
  { expected_floor_penalty := 0, expected_completions := 0,
    expected_adjacency_points := 0, expected_tiles_to_floor := 0,
    takes_first_player_token := false, tiles_acquired := 0 }

/-- Feedback category (src/rules/feedback.rs `FeedbackCategory`). -/
inductive FeedbackCategory
  | floorPenalty
  | lineCompletion
  | wastedTiles
  | adjacency
  | firstPlayerToken
deriving DecidableEq, Repr

/-- A feedback bullet (src/rules/feedback.rs `FeedbackBullet`); the
human-readable `text` string, irrelevant to every verified property, is
dropped. -/
structure FeedbackBullet where
  category : FeedbackCategory
  delta : Rat
deriving DecidableEq, Repr

/-- Grade bucket (src/rules/feedback.rs `Grade`). -/
inductive Grade
  | excellent
  | good
  | okay
  | miss
deriving DecidableEq, Repr

/-- Grade from the EV delta (src/rules/feedback.rs `compute_grade` with
`GRADE_THRESHOLDS` 0.25 / 1.0 / 2.5). -/
def compute_grade (delta_ev : Rat) : Grade :=
  let abs_delta := |delta_ev|
  if abs_delta ≤ 1/4 then .excellent
  else if abs_delta ≤ 1 then .good
  else if abs_delta ≤ 5/2 then .okay
  else .miss

/-- Pattern lines completed during the round (src/rules/feedback.rs
`count_pattern_lines_completed`). -/
def count_pattern_lines_completed (before after : PlayerBoard) : Nat :=
  ((List.range 5).filter (fun row =>
    let before_line := before.pattern_lines.getD row (PatternLine.new 0)
    let after_line := after.pattern_lines.getD row (PatternLine.new 0)
    before_line.count_filled = before_line.capacity ∧ after_line.count_filled = 0)).length

/-- Floor penalty from a board (src/rules/feedback.rs
`calculate_floor_penalty_for_player`). -/
def calculate_floor_penalty_for_player (player : PlayerBoard) : Int :=
  let floor_count := player.floor_line.tiles.length
  let total_slots :=
    if player.floor_line.has_first_player_token then min (floor_count + 1) 7
    else min floor_count 7
  ((List.range total_slots).map (fun i => FLOOR_PENALTIES.getD i 0)).sum

/-- Count the tiles an action acquires (src/rules/feedback.rs
`count_tiles_in_action`). -/
def count_tiles_in_action (s : State) (action : DraftAction) : Nat :=
  match action.source with
  | .factory idx => (s.factories.getD idx msetZero) action.color
  | .center => s.center.tiles action.color

/-- Feedback bullets comparing user and best features (src/rules/feedback.rs
`generate_feedback_bullets`): threshold checks, sort by delta descending,
keep at most 3. -/
def generate_feedback_bullets (user_features best_features : ActionFeatures) :
    List FeedbackBullet :=
  let floor_delta := user_features.expected_floor_penalty - best_features.expected_floor_penalty
  let completion_delta := best_features.expected_completions - user_features.expected_completions
  let waste_delta := user_features.expected_tiles_to_floor - best_features.expected_tiles_to_floor
  let adjacency_delta :=
    best_features.expected_adjacency_points - user_features.expected_adjacency_points
  let bullets :=
    (if |floor_delta| > 1/2 then [⟨FeedbackCategory.floorPenalty, |floor_delta|⟩] else [])
    ++ (if completion_delta > 1/10 then [⟨FeedbackCategory.lineCompletion, completion_delta⟩] else [])
    ++ (if waste_delta > 1/2 then [⟨FeedbackCategory.wastedTiles, waste_delta⟩] else [])
    ++ (if adjacency_delta > 1/2 then [⟨FeedbackCategory.adjacency, adjacency_delta⟩] else [])
    ++ (if user_features.takes_first_player_token ≠ best_features.takes_first_player_token then
          [⟨FeedbackCategory.firstPlayerToken, 1⟩] else [])
  (bullets.insertionSort (fun a b => b.delta ≤ a.delta)).take 3

/-- Evaluator errors (src/rules/evaluator.rs `EvaluatorError`); the
`ActionFailed` message for an illegal user action in `grade_user_action`
becomes its own constructor. -/
inductive EvaluatorError
  | noLegalActions
  | invalidPlayer (id : Nat)
  | rolloutFailure (e : RolloutError)
  | actionFailed (e : ValidationError)
  | userActionNotLegal
deriving DecidableEq, Repr

/-- Rollout policy pair (src/rules/evaluator.rs `RolloutPolicyConfig`). -/
structure RolloutPolicyConfig where
  active_player_policy : PolicyMix
  opponent_policy : PolicyMix
deriving Repr

/-- Evaluation parameters (src/rules/evaluator.rs `EvaluatorParams`).
`time_budget_ms` is carried but, under the embedded `wasm32` timing
semantics, never consulted. -/
structure EvaluatorParams where
  time_budget_ms : Nat
  rollouts_per_action : Nat
  evaluator_seed : Nat
  shortlist_size : Nat
  rollout_config : RolloutPolicyConfig
deriving Repr

/-- A scored candidate (src/rules/evaluator.rs `CandidateAction`). -/
structure CandidateAction where
  action : DraftAction
  ev : Rat
  rollouts : Nat
deriving DecidableEq, Repr

/-- Evaluation metadata (src/rules/evaluator.rs `EvaluationMetadata`);
`elapsed_ms` is 0 in the embedded no-clock semantics. -/
structure EvaluationMetadata where
  elapsed_ms : Nat
  rollouts_run : Nat
  candidates_evaluated : Nat
  total_legal_actions : Nat
  seed : Nat
  completed_within_budget : Bool
deriving DecidableEq, Repr

/-- Evaluation result (src/rules/evaluator.rs `EvaluationResult`). -/
structure EvaluationResult where
  best_action : DraftAction
  best_action_ev : Rat
  user_action_ev : Option Rat
  delta_ev : Option Rat
  metadata : EvaluationMetadata
  candidates : Option (List CandidateAction)
  best_features : ActionFeatures
  user_features : Option ActionFeatures
  feedback : Option (List FeedbackBullet)
  grade : Option Grade
deriving DecidableEq, Repr

/-- Mean of integer utilities (src/rules/evaluator.rs `mean`): 0 on the
empty list. -/
def mean (values : List Int) : Rat :=
  match values with
  | [] => 0
  | _ => (values.sum : Rat) / (values.length : Rat)

/-- Count tiles of a color in a source (src/rules/evaluator.rs
`count_tiles_in_source`; out-of-range factory indices yield 0 via `get`). -/
def count_tiles_in_source (s : State) (source : ActionSource) (color : TileColor) : Nat :=
  match source with
  | .factory idx => (s.factories.getD idx msetZero) color
  | .center => s.center.tiles color

/-- Pattern-line rows that can accept a color (src/rules/evaluator.rs
`count_placeable_rows`). -/
def count_placeable_rows (s : State) (player_id : Nat) (color : TileColor) : Nat :=
  let player := s.players.getD player_id PlayerBoard.new
  ((List.range 5).filter (fun row_idx =>
    let pattern_line := player.pattern_lines.getD row_idx (PatternLine.new 0)
    (pattern_line.count_filled = 0 ∨ pattern_line.color = some color) ∧
      ¬ wallGet player.wall row_idx (get_wall_column_for_color row_idx color))).length

/-- Fast heuristic score of an action (src/rules/evaluator.rs
`score_action_heuristic`); every term is integer-valued, so the `f64` score
is embedded as `Int`. The `u8` sum `count_filled + tiles_taken` wraps
mod 256. -/
def score_action_heuristic (s : State) (action : DraftAction) : Int :=
  let player := s.players.getD s.active_player_id PlayerBoard.new
  let destScore : Int :=
    match action.destination with
    | .patternLine row =>
      let pattern_line := player.pattern_lines.getD row (PatternLine.new 0)
      let tiles_taken := count_tiles_in_source s action.source action.color
      let tiles_after := (pattern_line.count_filled + tiles_taken) % 256
      100 + (if tiles_after ≥ pattern_line.capacity then 50 else 0) + (row : Int) * 5
    | .floor => 0
  let tiles_taken := count_tiles_in_source s action.source action.color
  let sourceScore : Int :=
    match action.source with
    | .center => if s.center.has_first_player_token then -15 else 0
    | .factory _ => 5
  destScore + (tiles_taken : Int) * 10 + sourceScore
    + (count_placeable_rows s s.active_player_id action.color : Int) * 3

/-- Shortlist the top-N actions (src/rules/evaluator.rs
`shortlist_actions`): heuristic scores, stable sort descending, take N.
`List.insertionSort` with this relation is a stable descending sort, hence
computes the same list as the source's stable `sort_by`. -/
def shortlist_actions (s : State) (legal_actions : List DraftAction)
    (shortlist_size : Nat) : List DraftAction :=
  let scored := legal_actions.map (fun action => (action, score_action_heuristic s action))
  ((scored.insertionSort (fun a b => b.2 ≤ a.2)).take shortlist_size).map (·.1)

/-- Accumulated per-candidate rollout statistics: the utility list and the
running feature sums of the source's rollout loop. -/
structure RolloutTally where
  utilities : List Int
  floor_sum : Int
  completions_sum : Nat
  tiles_floor_sum : Nat
deriving Repr

/-- The empty tally. -/
def RolloutTally.zero : RolloutTally := ⟨[], 0, 0, 0⟩

/-- One evaluation rollout (the shared body of the rollout loops in
src/rules/evaluator.rs `evaluate_best_move` and `grade_user_action`):
simulate, then measure utility and the three feature summands. -/
def rolloutMeasure (std : Nat → Nat → Nat) (ord : List TileColor) (r : Nat → Nat)
    (state_after_action : State) (player_id : Nat) (policies : RolloutPolicyConfig)
    (seed : Nat) (player_before : PlayerBoard) :
    Option (Except RolloutError (Int × Int × Nat × Nat)) :=
  let rollout_config : RolloutConfig :=
    { active_player_policy := policies.active_player_policy
      opponent_policy := policies.opponent_policy
      seed := seed
      max_actions := 100 }
  match simulate_rollout std ord r state_after_action rollout_config with
  | none => none
  | some (.error e) => some (.error e)
  | some (.ok result) =>
    let utility :=
      if player_id = 0 then result.player_0_score - result.player_1_score
      else result.player_1_score - result.player_0_score
    let player_after := result.final_state.players.getD player_id PlayerBoard.new
    some (.ok (utility,
      calculate_floor_penalty_for_player player_after,
      count_pattern_lines_completed player_before player_after,
      player_after.floor_line.tiles.length))

/-- Append one measured rollout to a tally. -/
def RolloutTally.push (t : RolloutTally) (m : Int × Int × Nat × Nat) : RolloutTally :=
  { utilities := t.utilities ++ [m.1]
    floor_sum := t.floor_sum + m.2.1
    completions_sum := t.completions_sum + m.2.2.1
    tiles_floor_sum := t.tiles_floor_sum + m.2.2.2 }

/-- The per-candidate rollout loop of `evaluate_best_move`
(src/rules/evaluator.rs): seeds are `evaluator_seed + rollouts_run` with the
global counter `k`, wrapping as `u64`; the refill randomness of rollout `k`
is the environment stream `refills k`. -/
def evalRollouts (std : Nat → Nat → Nat) (ord : List TileColor)
    (refills : Nat → Nat → Nat) (state_after_action : State) (player_id : Nat)
    (params : EvaluatorParams) (player_before : PlayerBoard) :
    Nat → Nat → RolloutTally → Option (Except RolloutError (RolloutTally × Nat))
  | 0, k, t => some (.ok (t, k))
  | count + 1, k, t =>
    let rollout_seed := (params.evaluator_seed + k) % (2 ^ 64)
    match rolloutMeasure std ord (refills k) state_after_action player_id
        params.rollout_config rollout_seed player_before with
    | none => none
    | some (.error e) => some (.error e)
    | some (.ok m) =>
      evalRollouts std ord refills state_after_action player_id params player_before
        count (k + 1) (t.push m)

/-- Build the averaged feature vector of one candidate
(src/rules/evaluator.rs, the average-and-static block). -/
def tallyFeatures (s : State) (action : DraftAction) (t : RolloutTally) : ActionFeatures :=
  let rollout_count := t.utilities.length
  let avg : ActionFeatures :=
    if rollout_count > 0 then
      { ActionFeatures.zero with
        expected_floor_penalty := (t.floor_sum : Rat) / (rollout_count : Rat)
        expected_completions := (t.completions_sum : Rat) / (rollout_count : Rat)
        expected_tiles_to_floor := (t.tiles_floor_sum : Rat) / (rollout_count : Rat) }
    else ActionFeatures.zero
  { avg with
    tiles_acquired := count_tiles_in_action s action
    takes_first_player_token :=
      action.source = ActionSource.center && s.center.has_first_player_token }

/-- The candidate loop of `evaluate_best_move` (src/rules/evaluator.rs,
step 5) under the no-clock (`wasm32`) semantics: every candidate is
evaluated. `best` carries action, EV and features; `none` stands for the
`f64::NEG_INFINITY` initial best. -/
def evalCandidates (std : Nat → Nat → Nat) (ord : List TileColor)
    (refills : Nat → Nat → Nat) (s : State) (player_id : Nat) (params : EvaluatorParams) :
    List DraftAction → Nat → List CandidateAction →
    Option (DraftAction × Rat × ActionFeatures) →
    Option (Except EvaluatorError
      (List CandidateAction × Option (DraftAction × Rat × ActionFeatures) × Nat))
  | [], k, results, best => some (.ok (results, best, k))
  | action :: rest, k, results, best =>
    match apply_action s action with
    | .error e => some (.error (.actionFailed e))
    | .ok state_after_action =>
      let player_before := state_after_action.players.getD player_id PlayerBoard.new
      match evalRollouts std ord refills state_after_action player_id params player_before
          params.rollouts_per_action k RolloutTally.zero with
      | none => none
      | some (.error e) => some (.error (.rolloutFailure e))
      | some (.ok (t, k')) =>
        let ev := mean t.utilities
        let features := tallyFeatures s action t
        let results' := results ++ [⟨action, ev, t.utilities.length⟩]
        let best' :=
          match best with
          | none => some (action, ev, features)
          | some (ba, bev, bf) =>
            if ev > bev then some (action, ev, features) else some (ba, bev, bf)
        evalCandidates std ord refills s player_id params rest k' results' best'

/-- Best-move evaluation (src/rules/evaluator.rs `evaluate_best_move`) in
the no-clock (`wasm32`) configuration: validate the player, enumerate and
optionally shortlist, evaluate every candidate, return the strictly-best
action with metadata and the candidate list. -/
def evaluate_best_move (std : Nat → Nat → Nat) (ord : List TileColor)
    (refills : Nat → Nat → Nat) (s : State) (player_id : Nat) (params : EvaluatorParams) :
    Option (Except EvaluatorError EvaluationResult) :=
  if player_id > 1 then some (.error (.invalidPlayer player_id))
  else
    let legal_actions := list_legal_actions ord s player_id
    match legal_actions with
    | [] => some (.error .noLegalActions)
    | _ =>
      let candidates :=
        if params.shortlist_size > 0 ∧ legal_actions.length > params.shortlist_size then
          shortlist_actions s legal_actions params.shortlist_size
        else legal_actions
      let total_candidates := candidates.length
      match evalCandidates std ord refills s player_id params candidates 0 [] none with
      | none => none
      | some (.error e) => some (.error e)
      | some (.ok (results, best, k)) =>
        match best with
        | none => some (.error .noLegalActions)
        | some (best_action, best_ev, best_features) =>
          some (.ok
            { best_action := best_action
              best_action_ev := best_ev
              user_action_ev := none
              delta_ev := none
              metadata :=
                { elapsed_ms := 0
                  rollouts_run := k
                  candidates_evaluated := results.length
                  total_legal_actions := legal_actions.length
                  seed := params.evaluator_seed
                  completed_within_budget := results.length ≥ total_candidates }
              candidates := some results
              best_features := best_features
              user_features := none
              feedback := none
              grade := none })

/-- The grading rollout loop (src/rules/evaluator.rs `grade_user_action`,
step 4): seeds are `evaluator_seed + 1_000_000 + i` (wrapping `u64`) over
the local index `i`. -/
def gradeRollouts (std : Nat → Nat → Nat) (ord : List TileColor)
    (refills : Nat → Nat → Nat) (state_after_action : State) (player_id : Nat)
    (params : EvaluatorParams) (player_before : PlayerBoard) :
    Nat → Nat → RolloutTally → Option (Except RolloutError RolloutTally)
  | 0, _, t => some (.ok t)
  | count + 1, i, t =>
    let rollout_seed := (params.evaluator_seed + 1000000 + i) % (2 ^ 64)
    match rolloutMeasure std ord (refills i) state_after_action player_id
        params.rollout_config rollout_seed player_before with
    | none => none
    | some (.error e) => some (.error e)
    | some (.ok m) =>
      gradeRollouts std ord refills state_after_action player_id params player_before
        count (i + 1) (t.push m)

/-- Grade a user action against a best-move evaluation
(src/rules/evaluator.rs `grade_user_action`): check legality, reuse the
candidate EV when the action was already evaluated, run feature rollouts,
compute delta, grade and feedback. -/
def grade_user_action (std : Nat → Nat → Nat) (ord : List TileColor)
    (refills : Nat → Nat → Nat) (s : State) (player_id : Nat) (user_action : DraftAction)
    (params : EvaluatorParams) (best_result : EvaluationResult) :
    Option (Except EvaluatorError EvaluationResult) :=
  let legal_actions := list_legal_actions ord s player_id
  if user_action ∈ legal_actions then
    let user_ev_from_candidates :=
      best_result.candidates.bind (fun cs =>
        (cs.find? (fun c => decide (c.action = user_action))).map (·.ev))
    match apply_action s user_action with
    | .error e => some (.error (.actionFailed e))
    | .ok state_after_action =>
      let player_before := state_after_action.players.getD player_id PlayerBoard.new
      match gradeRollouts std ord refills state_after_action player_id params player_before
          params.rollouts_per_action 0 RolloutTally.zero with
      | none => none
      | some (.error e) => some (.error (.rolloutFailure e))
      | some (.ok t) =>
        let user_features := tallyFeatures s user_action t
        let user_ev := user_ev_from_candidates.getD (mean t.utilities)
        let delta_ev := user_ev - best_result.best_action_ev
        some (.ok { best_result with
          user_action_ev := some user_ev
          delta_ev := some delta_ev
          user_features := some user_features
          feedback := some (generate_feedback_bullets user_features best_result.best_features)
          grade := some (compute_grade delta_ev) })
  else some (.error .userActionNotLegal)

/-! Theorems. Definitions named `...Spec` restate a claim's wording and are
compared against the embedded source functions. -/

/-- The floor-penalty formula as the specification words it: the sum of the
first `min 7 (tiles + token)` penalty slots, the token consuming slot 0. -/
def floorPenaltySpec (tiles : Nat) (token : Bool) : Int :=
  (FLOOR_PENALTIES.take (min 7 (tiles + if token then 1 else 0))).sum

/-- C5: for every floor line with `t` tiles and token flag `k`, the floor
penalty equals the sum of `penalties[0 .. min 7 (t + k))` over
`[-1,-1,-2,-2,-2,-3,-3]`, the token consuming slot 0 first; in particular
3 tiles plus the token give `-6`, and 7 tiles plus the token give `-14`
(the penalty saturates at 7 slots). -/
theorem floor_penalty_matches_spec :
    (∀ fl : FloorLine,
      calculate_floor_penalty fl = floorPenaltySpec fl.tiles.length fl.has_first_player_token)
    ∧ calculate_floor_penalty ⟨[.blue, .red, .yellow], true⟩ = -6
    ∧ calculate_floor_penalty
        ⟨[.blue, .blue, .red, .red, .yellow, .black, .white], true⟩ = -14 := by
  refine ⟨?_, by decide, by decide⟩
  intro fl
  obtain ⟨tiles, token⟩ := fl
  simp only [calculate_floor_penalty, floorPenaltySpec]
  generalize tiles.length = t
  cases token with
  | false =>
    simp only [Bool.false_eq_true, if_false]
    rcases Nat.lt_or_ge t 7 with h | h
    · interval_cases t <;> rfl
    · have h1 : min t (7 - 0) = 7 := by omega
      have h2 : min 7 (t + 0) = 7 := by omega
      rw [h1, h2]
      rfl
  | true =>
    simp only [if_true]
    rcases Nat.lt_or_ge t 7 with h | h
    · interval_cases t <;> rfl
    · have h1 : min t (7 - 1) = 6 := by omega
      have h2 : min 7 (t + 1) = 7 := by omega
      rw [h1, h2]
      rfl

/-- C9: whenever `simulate_rollout` returns an `ok` result, its
`completed_normally` field is `true`: the max-actions case surfaces as the
`maxActionsExceeded` error, so a successful result with
`completed_normally = false` is unreachable. -/
theorem rollout_ok_is_completed_normally (std : Nat → Nat → Nat) (ord : List TileColor)
    (r : Nat → Nat) (s : State) (cfg : RolloutConfig) :
    Option.all
      (fun ex => match ex with
        | Except.ok res => res.completed_normally
        | Except.error _ => true)
      (simulate_rollout std ord r s cfg) = true := by
  unfold simulate_rollout
  cases hL : rolloutLoop ord (std cfg.seed) cfg (cfg.max_actions + 1) s 0 0 with
  | error e => rfl
  | ok p =>
    obtain ⟨s1, n⟩ := p
    dsimp only
    cases hR : resolve_end_of_round r s1 with
    | none => rfl
    | some s2 => rfl

/-- A hash order that lists Yellow before Blue, as a Rust `HashMap` may. -/
def yellowFirstOrder : List TileColor := [.yellow, .blue, .red, .black, .white]

/-- One factory holding one Blue and one Yellow tile. -/
def c3Factory : TileMultiset :=
  fun c => match c with
  | .blue => 1
  | .yellow => 1
  | _ => 0

/-- A state whose only table tiles are one Blue and one Yellow in
factory 0. -/
def c3State : State :=
  { active_player_id := 0
    round_number := 1
    bag := msetZero
    lid := msetZero
    factories := [c3Factory, msetZero, msetZero, msetZero, msetZero]
    center := { tiles := msetZero, has_first_player_token := true }
    players := [PlayerBoard.new, PlayerBoard.new] }

/-- C3 (counter-evidence): the enumeration of `list_legal_actions` is a
function of the `HashMap` iteration order, not of the state alone; for the
admissible yellow-first order the output differs from the canonical-order
output, so the claimed canonical Blue-Yellow-Red-Black-White enumeration
does not hold of the source, which iterates the map directly. -/
theorem legality_order_depends_on_hash_order :
    HashOrder yellowFirstOrder ∧
      list_legal_actions yellowFirstOrder c3State 0 ≠ list_legal_actions ALL_COLORS c3State 0 := by
  exact ⟨⟨by decide, by decide⟩, by decide⟩

/-- The rollout outputs named by the determinism claim: both scores, the
action count, and the final walls. -/
def rolloutOutputs (res : RolloutResult) : Int × Int × Nat × List Wall :=
  (res.player_0_score, res.player_1_score, res.actions_simulated,
    res.final_state.players.map (·.wall))

/-- Factory refill never touches the player boards. -/
theorem refill_players_eq (r : Nat → Nat) (s : State) :
    (refill_factories_with_rng r s).players = s.players := by
  unfold refill_factories_with_rng
  rfl

/-- The final phase of end-of-round resolution keeps the player boards of
the cleaned-up state, whatever the refill randomness. -/
theorem resolve_branch_players (r : Nat → Nat) (s3 : State) :
    (if check_game_end s3 then s3
     else refill_factories_with_rng r
       { s3 with round_number := (s3.round_number + 1) % 256 }).players
      = s3.players := by
  by_cases h : check_game_end s3
  · rw [if_pos h]
  · rw [if_neg h, refill_players_eq]

/-- The players of the resolved state do not depend on the refill
randomness. -/
theorem resolve_players_indep (r1 r2 : Nat → Nat) (s : State) :
    (resolve_end_of_round r1 s).map (fun s2 => s2.players)
      = (resolve_end_of_round r2 s).map (fun s2 => s2.players) := by
  unfold resolve_end_of_round
  cases h : resolve_pattern_lines s with
  | none => simp only [Option.map_none']
  | some s1 =>
    simp only [Option.map_some']
    rw [resolve_branch_players r1, resolve_branch_players r2]

/-- C2: for a fixed seed (and fixed environment: the seed-to-stream map and
the map iteration order, which two runs in one process share), two runs of
`simulate_rollout` agree on `p0_score`, `p1_score`, `actions_simulated` and
the final walls — the two runs may differ only in the `thread_rng` refill
streams `r1`, `r2`, and those never reach the compared outputs. -/
theorem rollout_outputs_deterministic (std : Nat → Nat → Nat) (ord : List TileColor)
    (r1 r2 : Nat → Nat) (s : State) (cfg : RolloutConfig) :
    (simulate_rollout std ord r1 s cfg).map (Except.map rolloutOutputs)
      = (simulate_rollout std ord r2 s cfg).map (Except.map rolloutOutputs) := by
  unfold simulate_rollout
  cases hL : rolloutLoop ord (std cfg.seed) cfg (cfg.max_actions + 1) s 0 0 with
  | error e => rfl
  | ok p =>
    obtain ⟨s1, n⟩ := p
    dsimp only
    have hP := resolve_players_indep r1 r2 s1
    cases h1 : resolve_end_of_round r1 s1 with
    | none =>
      cases h2 : resolve_end_of_round r2 s1 with
      | none => rfl
      | some t2 => rw [h1, h2] at hP; simp at hP
    | some t1 =>
      cases h2 : resolve_end_of_round r2 s1 with
      | none => rw [h1, h2] at hP; simp at hP
      | some t2 =>
        rw [h1, h2] at hP
        simp only [Option.map_some'] at hP ⊢
        simp only [Option.some.injEq] at hP
        simp only [Except.map, rolloutOutputs, hP]

/-- Reading a projection through a mapped list: `g` after the update `f`
agrees with `h` before it. -/
theorem map_getD_rel {α β : Type} (f : α → α) (g h : α → β) (d : α)
    (hfg : ∀ x, g (f x) = h x) (hd : g d = h d) :
    ∀ (l : List α) (i : Nat), g ((l.map f).getD i d) = h (l.getD i d) := by
  intro l
  induction l with
  | nil => intro i; simpa using hd
  | cons x xs ih =>
    intro i
    cases i with
    | zero => simpa using hfg x
    | succ j => simpa using ih j

/-- Reading an unchanged index through `List.set`. -/
theorem getD_set_ne {α : Type} (d : α) :
    ∀ (l : List α) (i j : Nat) (a : α), i ≠ j → (l.set i a).getD j d = l.getD j d := by
  intro l
  induction l with
  | nil => intro i j a _; simp
  | cons x xs ih =>
    intro i j a hij
    cases i with
    | zero =>
      cases j with
      | zero => exact absurd rfl hij
      | succ j2 => simp
    | succ i2 =>
      cases j with
      | zero => simp
      | succ j2 => simpa using ih i2 j2 a (by omega)

/-- The per-player scores produced by the floor-penalty step are the
clamped `max 0 (score + penalty)` of the inputs. -/
theorem apply_floor_penalties_score (s : State) (i : Nat) :
    ((apply_floor_penalties s).players.getD i PlayerBoard.new).score
      = max 0 ((s.players.getD i PlayerBoard.new).score
          + calculate_floor_penalty (s.players.getD i PlayerBoard.new).floor_line) := by
  unfold apply_floor_penalties
  exact map_getD_rel
    (fun player =>
      { player with score := max 0 (player.score + calculate_floor_penalty player.floor_line) })
    (fun p => p.score)
    (fun p => max 0 (p.score + calculate_floor_penalty p.floor_line))
    PlayerBoard.new (fun _ => rfl) (by decide) s.players i

/-- All scores of the cleaned-up and penalty-clamped players are
non-negative. -/
theorem cleanup_scores_nonneg (s1 : State) :
    ((endOfRoundCleanup (apply_floor_penalties s1)).players.all
      (fun p => decide (0 ≤ p.score))) = true := by
  unfold endOfRoundCleanup apply_floor_penalties
  dsimp only
  rw [List.map_map, List.all_map]
  apply List.all_eq_true.2
  intro x _
  simp [Function.comp, le_max_left]

/-- C4: after `resolve_end_of_round`, every player's score is non-negative;
the penalty step itself sets each score to `max 0 (score + penalty)`, and
the final scores are exactly the post-penalty scores, so the later steps
never decrease them. -/
theorem scores_nonneg_after_resolution (r : Nat → Nat) (s : State) :
    Option.all (fun s2 => s2.players.all (fun p => decide (0 ≤ p.score)))
        (resolve_end_of_round r s) = true
    ∧ (∀ i : Nat, ((apply_floor_penalties s).players.getD i PlayerBoard.new).score
        = max 0 ((s.players.getD i PlayerBoard.new).score
            + calculate_floor_penalty (s.players.getD i PlayerBoard.new).floor_line))
    ∧ ∀ s1 s2 : State, resolve_pattern_lines s = some s1 → resolve_end_of_round r s = some s2 →
        s2.players.map (fun p => p.score)
          = (endOfRoundCleanup (apply_floor_penalties s1)).players.map (fun p => p.score) := by
  refine ⟨?_, fun i => apply_floor_penalties_score s i, ?_⟩
  · unfold resolve_end_of_round
    cases h : resolve_pattern_lines s with
    | none => rfl
    | some s1 =>
      simp only [Option.map_some', Option.all_some]
      rw [resolve_branch_players r]
      exact cleanup_scores_nonneg s1
  · intro s1 s2 h1 h2
    unfold resolve_end_of_round at h2
    rw [h1] at h2
    simp only [Option.map_some', Option.some.injEq] at h2
    rw [← h2, resolve_branch_players r]

/-- Factory refill never changes the active player. -/
theorem refill_active_eq (r : Nat → Nat) (s : State) :
    (refill_factories_with_rng r s).active_player_id = s.active_player_id := by
  unfold refill_factories_with_rng
  rfl

/-- Factory refill never changes the first-player-token flag of the
center. -/
theorem refill_center_token_eq (r : Nat → Nat) (s : State) :
    (refill_factories_with_rng r s).center.has_first_player_token
      = s.center.has_first_player_token := by
  unfold refill_factories_with_rng
  rfl

/-- Resolving one pattern-line row never touches the floor line and only
rewrites the processed row. -/
theorem resolveRow_preserves (l : TileMultiset) (p : PlayerBoard) (row : Nat)
    (l2 : TileMultiset) (p2 : PlayerBoard) (h : resolveRow l p row = some (l2, p2)) :
    p2.floor_line = p.floor_line
      ∧ ∀ r2, r2 ≠ row →
          p2.pattern_lines.getD r2 (PatternLine.new 0)
            = p.pattern_lines.getD r2 (PatternLine.new 0) := by
  simp only [resolveRow] at h
  split at h
  · split at h
    · exact absurd h (by simp)
    · split at h
      · simp only [Option.some.injEq, Prod.mk.injEq] at h
        obtain ⟨-, h2⟩ := h
        subst h2
        exact ⟨rfl, fun r2 hr2 => getD_set_ne _ _ _ _ _ (fun he => hr2 he.symm)⟩
      · simp only [Option.some.injEq, Prod.mk.injEq] at h
        obtain ⟨-, h2⟩ := h
        subst h2
        exact ⟨rfl, fun r2 hr2 => getD_set_ne _ _ _ _ _ (fun he => hr2 he.symm)⟩
  · simp only [Option.some.injEq, Prod.mk.injEq] at h
    obtain ⟨-, h2⟩ := h
    subst h2
    exact ⟨rfl, fun _ _ => rfl⟩

/-- A row-resolution fold started from `none` stays `none`. -/
theorem foldRows_none (rows : List Nat) :
    rows.foldl (fun acc row => acc.bind (fun lp => resolveRow lp.1 lp.2 row))
      (none : Option (TileMultiset × PlayerBoard)) = none := by
  induction rows with
  | nil => rfl
  | cons row rows ih => simpa using ih

/-- Resolving a player's rows never touches the floor line. -/
theorem resolvePlayer_floor (rows : List Nat) :
    ∀ (l : TileMultiset) (p : PlayerBoard) (l2 : TileMultiset) (p2 : PlayerBoard),
      rows.foldl (fun acc row => acc.bind (fun lp => resolveRow lp.1 lp.2 row))
          (some (l, p)) = some (l2, p2) →
      p2.floor_line = p.floor_line := by
  induction rows with
  | nil =>
    intro l p l2 p2 h
    simp only [List.foldl_nil, Option.some.injEq, Prod.mk.injEq] at h
    rw [← h.2]
  | cons row rows ih =>
    intro l p l2 p2 h
    simp only [List.foldl_cons, Option.some_bind] at h
    cases hr : resolveRow l p row with
    | none => rw [hr, foldRows_none] at h; exact absurd h (by simp)
    | some lp2 =>
      obtain ⟨lm, pm⟩ := lp2
      rw [hr] at h
      exact (ih lm pm l2 p2 h).trans (resolveRow_preserves l p row lm pm hr).1

/-- Pattern-line resolution keeps the active player and every floor
line. -/
theorem resolve_pattern_lines_preserves (s s1 : State)
    (h : resolve_pattern_lines s = some s1) :
    s1.active_player_id = s.active_player_id
      ∧ s1.center = s.center
      ∧ ∀ i, (s1.players.getD i PlayerBoard.new).floor_line
          = (s.players.getD i PlayerBoard.new).floor_line := by
  unfold resolve_pattern_lines at h
  simp only [List.foldl_cons, List.foldl_nil, Option.some_bind] at h
  cases hA : resolvePlayer s.lid (s.players.getD 0 PlayerBoard.new) with
  | none => rw [hA] at h; exact absurd h (by simp)
  | some lpA =>
    obtain ⟨lA, pA⟩ := lpA
    rw [hA] at h
    simp only [Option.map_some', Option.some_bind] at h
    cases hB : resolvePlayer lA ((s.players.set 0 pA).getD 1 PlayerBoard.new) with
    | none => rw [hB] at h; exact absurd h (by simp)
    | some lpB =>
      obtain ⟨lB, pB⟩ := lpB
      rw [hB] at h
      simp only [Option.map_some', Option.some.injEq] at h
      subst h
      refine ⟨rfl, rfl, fun i => ?_⟩
      have hfA : pA.floor_line = (s.players.getD 0 PlayerBoard.new).floor_line :=
        resolvePlayer_floor [0, 1, 2, 3, 4] _ _ _ _ hA
      have hfB : pB.floor_line = ((s.players.set 0 pA).getD 1 PlayerBoard.new).floor_line :=
        resolvePlayer_floor [0, 1, 2, 3, 4] _ _ _ _ hB
      rcases hps : s.players with _ | ⟨a, as⟩
      · simp
      · rcases has : as with _ | ⟨b, bs⟩
        · subst has
          rw [hps] at hfA hfB
          cases i with
          | zero => simpa using hfA
          | succ j => simp
        · subst has
          rw [hps] at hfA hfB
          match i with
          | 0 => simpa using hfA
          | 1 => simpa using hfB
          | (j + 2) => simp

/-- The floor-penalty step touches only scores. -/
theorem apply_floor_penalties_floor (s : State) (i : Nat) :
    ((apply_floor_penalties s).players.getD i PlayerBoard.new).floor_line
      = (s.players.getD i PlayerBoard.new).floor_line := by
  unfold apply_floor_penalties
  exact map_getD_rel
    (fun player =>
      { player with score := max 0 (player.score + calculate_floor_penalty player.floor_line) })
    (fun p => p.floor_line) (fun p => p.floor_line)
    PlayerBoard.new (fun _ => rfl) rfl s.players i

/-- C10: when neither seat's floor line holds the first-player token,
end-of-round resolution keeps `active_player_id` and still returns the
token flag to the center of the result. -/
theorem no_token_keeps_active_and_centers_token (r : Nat → Nat) (s s2 : State)
    (h0 : (s.players.getD 0 PlayerBoard.new).floor_line.has_first_player_token = false)
    (h1 : (s.players.getD 1 PlayerBoard.new).floor_line.has_first_player_token = false)
    (hres : resolve_end_of_round r s = some s2) :
    s2.active_player_id = s.active_player_id
      ∧ s2.center.has_first_player_token = true := by
  unfold resolve_end_of_round at hres
  cases hP : resolve_pattern_lines s with
  | none => rw [hP] at hres; exact absurd hres (by simp)
  | some s1 =>
    rw [hP] at hres
    simp only [Option.map_some', Option.some.injEq] at hres
    obtain ⟨hact, -, hfloor⟩ := resolve_pattern_lines_preserves s s1 hP
    have hf0 : ((apply_floor_penalties s1).players.getD 0 PlayerBoard.new).floor_line
        = (s.players.getD 0 PlayerBoard.new).floor_line := by
      rw [apply_floor_penalties_floor, hfloor 0]
    have hf1 : ((apply_floor_penalties s1).players.getD 1 PlayerBoard.new).floor_line
        = (s.players.getD 1 PlayerBoard.new).floor_line := by
      rw [apply_floor_penalties_floor, hfloor 1]
    have hactive : (endOfRoundCleanup (apply_floor_penalties s1)).active_player_id
        = s.active_player_id := by
      unfold endOfRoundCleanup
      dsimp only
      rw [hf0, hf1, h0, h1]
      simp only [Bool.false_eq_true, if_false]
      have : (apply_floor_penalties s1).active_player_id = s1.active_player_id := rfl
      rw [this, hact]
    have htok : (endOfRoundCleanup (apply_floor_penalties s1)).center.has_first_player_token
        = true := rfl
    subst hres
    by_cases hend : check_game_end (endOfRoundCleanup (apply_floor_penalties s1))
    · rw [if_pos hend]
      exact ⟨hactive, htok⟩
    · rw [if_neg hend]
      rw [refill_active_eq, refill_center_token_eq]
      exact ⟨hactive, htok⟩

/-- A pattern-line row that cannot hit the abort in row resolution: when
complete, its color is set. -/
def lineOk (p : PlayerBoard) (row : Nat) : Prop :=
  (p.pattern_lines.getD row (PatternLine.new 0)).count_filled
      = (p.pattern_lines.getD row (PatternLine.new 0)).capacity →
    (p.pattern_lines.getD row (PatternLine.new 0)).color ≠ none

/-- Every complete pattern line of either seat has a color set (the
precondition of the `expect` in src/rules/resolution.rs). -/
def completeLinesColored (s : State) : Prop :=
  ∀ i ∈ [0, 1], ∀ row ∈ [0, 1, 2, 3, 4], lineOk (s.players.getD i PlayerBoard.new) row

/-- Row resolution succeeds on a row that is incomplete or colored. -/
theorem resolveRow_isSome (l : TileMultiset) (p : PlayerBoard) (row : Nat)
    (h : lineOk p row) : ∃ l2 p2, resolveRow l p row = some (l2, p2) := by
  simp only [resolveRow]
  split
  · next hcomp =>
    cases hc : (p.pattern_lines.getD row (PatternLine.new 0)).color with
    | none => exact absurd hc (h hcomp)
    | some color =>
      dsimp only
      by_cases hw : wallGet p.wall row (get_wall_column_for_color row color) = true
      · exact ⟨_, _, by rw [if_pos hw]⟩
      · exact ⟨_, _, by rw [if_neg hw]⟩
  · exact ⟨l, p, rfl⟩

/-- The row-resolution fold succeeds when every listed (distinct) row is
incomplete or colored. -/
theorem foldRows_isSome : ∀ (rows : List Nat), rows.Nodup →
    ∀ (l : TileMultiset) (p : PlayerBoard), (∀ row ∈ rows, lineOk p row) →
    ∃ l2 p2,
      rows.foldl (fun acc row => acc.bind (fun lp => resolveRow lp.1 lp.2 row))
        (some (l, p)) = some (l2, p2) := by
  intro rows
  induction rows with
  | nil => intro _ l p _; exact ⟨l, p, rfl⟩
  | cons row rows ih =>
    intro hnd l p h
    obtain ⟨l1, p1, h1⟩ := resolveRow_isSome l p row (h row (by simp))
    have hpres := resolveRow_preserves l p row l1 p1 h1
    have hrest : ∀ r2 ∈ rows, lineOk p1 r2 := by
      intro r2 hr2
      have hne : r2 ≠ row := fun he => (List.nodup_cons.1 hnd).1 (he ▸ hr2)
      unfold lineOk
      rw [hpres.2 r2 hne]
      exact h r2 (List.mem_cons_of_mem _ hr2)
    obtain ⟨l2, p2, h2⟩ := ih (List.nodup_cons.1 hnd).2 l1 p1 hrest
    refine ⟨l2, p2, ?_⟩
    simp only [List.foldl_cons, Option.some_bind]
    rw [h1]
    exact h2

/-- Player resolution succeeds when rows 0..4 are incomplete or colored. -/
theorem resolvePlayer_isSome (l : TileMultiset) (p : PlayerBoard)
    (h : ∀ row ∈ [0, 1, 2, 3, 4], lineOk p row) :
    ∃ l2 p2, resolvePlayer l p = some (l2, p2) :=
  foldRows_isSome [0, 1, 2, 3, 4] (by decide) l p h

/-- Pattern-line resolution succeeds on states whose complete lines are all
colored. -/
theorem resolve_pattern_lines_isSome (s : State) (h : completeLinesColored s) :
    ∃ s1, resolve_pattern_lines s = some s1 := by
  unfold resolve_pattern_lines
  simp only [List.foldl_cons, List.foldl_nil, Option.some_bind]
  obtain ⟨lA, pA, hA⟩ :=
    resolvePlayer_isSome s.lid (s.players.getD 0 PlayerBoard.new) (h 0 (by simp))
  rw [hA]
  simp only [Option.map_some', Option.some_bind]
  have hok : ∀ row ∈ [0, 1, 2, 3, 4],
      lineOk ((s.players.set 0 pA).getD 1 PlayerBoard.new) row := by
    intro row hr
    rw [getD_set_ne _ _ 0 1 _ (by omega)]
    exact h 1 (by simp) row hr
  obtain ⟨lB, pB, hB⟩ := resolvePlayer_isSome lA _ hok
  rw [hB]
  exact ⟨_, rfl⟩

/-- C8: on every state in which each complete pattern line has a color set,
`resolve_end_of_round` returns a state: it has no error branch of its own,
even on corrupted states such as a complete pattern line whose wall cell is
already filled (which is skipped without placement or scoring). -/
theorem resolve_end_of_round_total (r : Nat → Nat) (s : State)
    (h : completeLinesColored s) :
    (resolve_end_of_round r s).isSome = true := by
  obtain ⟨s1, hs1⟩ := resolve_pattern_lines_isSome s h
  unfold resolve_end_of_round
  rw [hs1]
  simp only [Option.map_some', Option.isSome_some]

/-- A board corrupted the way the claim describes: pattern line 2 is
complete with Blue, but the Blue wall cell of row 2 is already filled. -/
def c8Board : PlayerBoard :=
  { score := 0
    pattern_lines :=
      [PatternLine.new 0, PatternLine.new 1,
       { capacity := 3, color := some .blue, count_filled := 3 },
       PatternLine.new 3, PatternLine.new 4]
    wall := wallSet emptyWall 2 2 true
    floor_line := { tiles := [], has_first_player_token := false } }

/-- A state holding the corrupted board. -/
def c8State : State :=
  { active_player_id := 0
    round_number := 1
    bag := msetZero
    lid := msetZero
    factories := [msetZero, msetZero, msetZero, msetZero, msetZero]
    center := { tiles := msetZero, has_first_player_token := false }
    players := [c8Board, PlayerBoard.new] }

/-- Witness for C8: resolution returns a state even on the corrupted
board. -/
theorem resolve_end_of_round_total_witness :
    (resolve_end_of_round (fun _ => 0) c8State).isSome = true :=
  resolve_end_of_round_total (fun _ => 0) c8State
    (by unfold completeLinesColored lineOk; decide)

/-- A plain state with empty boards and no token on either floor line. -/
def c10State : State :=
  { active_player_id := 1
    round_number := 1
    bag := msetZero
    lid := msetZero
    factories := [msetZero, msetZero, msetZero, msetZero, msetZero]
    center := { tiles := msetZero, has_first_player_token := false }
    players := [PlayerBoard.new, PlayerBoard.new] }

/-- Witness for C10 at the concrete token-free state. -/
theorem no_token_keeps_active_witness :
    (resolve_end_of_round (fun _ => 0) c10State).all
      (fun s2 => decide (s2.active_player_id = c10State.active_player_id)
        && s2.center.has_first_player_token) = true := by
  cases hres : resolve_end_of_round (fun _ => 0) c10State with
  | none =>
    have htot := resolve_end_of_round_total (fun _ => 0) c10State
      (by unfold completeLinesColored lineOk; decide)
    rw [hres] at htot
    simp at htot
  | some s2 =>
    have h := no_token_keeps_active_and_centers_token (fun _ => 0) c10State s2
      (by decide) (by decide) hres
    simp [Option.all_some, h.1, h.2]

/-- The resolved state after pattern lines on the plain state (used only to
exercise the score-equality part of C4 at a concrete input). -/
def c4S1 : State := (resolve_pattern_lines c10State).getD c10State

/-- The fully resolved plain state. -/
def c4S2 : State := (resolve_end_of_round (fun _ => 0) c10State).getD c10State

/-- Witness for C4 at the concrete state, exercising all three parts. -/
theorem scores_nonneg_witness :
    ((resolve_end_of_round (fun _ => 0) c10State).all
      (fun s2 => s2.players.all (fun p => decide (0 ≤ p.score))) = true)
    ∧ c4S2.players.map (fun p => p.score)
        = (endOfRoundCleanup (apply_floor_penalties c4S1)).players.map (fun p => p.score) :=
  ⟨(scores_nonneg_after_resolution (fun _ => 0) c10State).1,
    (scores_nonneg_after_resolution (fun _ => 0) c10State).2.2 c4S1 c4S2 rfl rfl⟩

/-- All boolean lists of a given length. -/
def boolLists : Nat → List (List Bool)
  | 0 => [[]]
  | n + 1 => (boolLists n).flatMap (fun l => [true :: l, false :: l])

/-- Every boolean list appears in the enumeration of its length. -/
theorem mem_boolLists : ∀ l : List Bool, l ∈ boolLists l.length := by
  intro l
  induction l with
  | nil => simp [boolLists]
  | cons b bs ih =>
    cases b
    · exact List.mem_flatMap.2 ⟨bs, ih, by simp⟩
    · exact List.mem_flatMap.2 ⟨bs, ih, by simp⟩

/-- The maximal contiguous run through position `idx` of a 5-cell line, as
the specification words it: the number of positions connected to `idx`
through filled cells (including `idx` itself). -/
def runThrough (cells : List Bool) (idx : Nat) : Nat :=
  ((List.range 5).filter (fun d =>
    decide (∀ e ∈ List.range 5, min idx d ≤ e → e ≤ max idx d →
      cells.getD e false = true))).length

/-- The adjacency-score formula as the specification words it. -/
def scoreSpec (H V : Nat) : Int :=
  if H = 1 ∧ V = 1 then 1
  else (if H > 1 then (H : Int) else 0) + (if V > 1 then (V : Int) else 0)

/-- On a filled 5-cell line, the source's two scan loops compute exactly the
maximal contiguous run through the position, and that run is at most 5. -/
theorem line_counts (cells : List Bool) (h5 : cells.length = 5) (idx : Nat)
    (hidx : idx < 5) (hcell : cells.getD idx false = true) :
    1 + ((cells.take idx).reverse.takeWhile id).length
        + ((cells.drop (idx + 1)).takeWhile id).length = runThrough cells idx
    ∧ runThrough cells idx ≤ 5 := by
  have hall : ∀ c ∈ boolLists 5, ∀ i ∈ List.range 5, c.getD i false = true →
      (1 + ((c.take i).reverse.takeWhile id).length
          + ((c.drop (i + 1)).takeWhile id).length = runThrough c i
        ∧ runThrough c i ≤ 5) := by decide
  exact hall cells (h5 ▸ mem_boolLists cells) idx (List.mem_range.2 hidx) hcell

/-- A property holding of every member holds of an in-range `getD`. -/
theorem getD_prop {α : Type} (P : α → Prop) :
    ∀ (l : List α) (n : Nat) (d : α), (∀ x ∈ l, P x) → n < l.length → P (l.getD n d) := by
  intro l
  induction l with
  | nil => intro n d _ hn; simp at hn
  | cons x xs ih =>
    intro n d hl hn
    cases n with
    | zero => exact hl x (by simp)
    | succ m =>
      exact ih m d (fun y hy => hl y (List.mem_cons_of_mem _ hy)) (by simpa using hn)

/-- Reading through a mapped list at an in-range index. -/
theorem getD_map_at {α β : Type} (f : α → β) (d : α) :
    ∀ (l : List α) (i : Nat), i < l.length → (l.map f).getD i (f d) = f (l.getD i d) := by
  intro l
  induction l with
  | nil => intro i hi; simp at hi
  | cons x xs ih =>
    intro i hi
    cases i with
    | zero => simp
    | succ j =>
      have hj : j < xs.length := by simp at hi; omega
      simp [ih j hj]

/-- A well-formed 5×5 wall (the Rust `[[bool; 5]; 5]` type). -/
def wallWF (w : Wall) : Prop := w.length = 5 ∧ ∀ row ∈ w, row.length = 5

/-- C6: for a wall with a tile placed at (row, col), the adjacency score of
`calculate_wall_tile_score` equals the spec formula over the maximal
horizontal run H and vertical run V through the cell — 1 when H = V = 1,
otherwise (H if H > 1) + (V if V > 1) — and never exceeds 10. -/
theorem wall_tile_score_matches_spec (w : Wall) (row col : Nat)
    (hwf : wallWF w) (hr : row < 5) (hc : col < 5)
    (hcell : wallGet w row col = true) :
    calculate_wall_tile_score w row col
      = scoreSpec (runThrough (w.getD row []) col)
          (runThrough (w.map (fun r2 => r2.getD col false)) row)
    ∧ calculate_wall_tile_score w row col ≤ 10 := by
  have hrowlen : (w.getD row []).length = 5 :=
    getD_prop (fun r2 => r2.length = 5) w row [] hwf.2 (hwf.1 ▸ hr)
  have hcollen : (w.map (fun r2 => r2.getD col false)).length = 5 := by
    rw [List.length_map, hwf.1]
  have hcolget : (w.map (fun r2 => r2.getD col false)).getD row false
      = wallGet w row col :=
    getD_map_at (fun r2 => r2.getD col false) [] w row (hwf.1 ▸ hr)
  obtain ⟨hH, hHle⟩ := line_counts (w.getD row []) hrowlen col hc hcell
  obtain ⟨hV, hVle⟩ :=
    line_counts (w.map (fun r2 => r2.getD col false)) hcollen row hr
      (hcolget.trans hcell)
  unfold calculate_wall_tile_score
  dsimp only
  rw [hH, hV]
  refine ⟨rfl, ?_⟩
  set H := runThrough (w.getD row []) col with hHdef
  set V := runThrough (w.map (fun r2 => r2.getD col false)) row with hVdef
  by_cases h1 : H = 1 ∧ V = 1
  · rw [if_pos h1]; omega
  · rw [if_neg h1]
    have hhb : (if H > 1 then (H : Int) else 0) ≤ 5 := by
      split
      · exact_mod_cast hHle
      · omega
    have hvb : (if V > 1 then (V : Int) else 0) ≤ 5 := by
      split
      · exact_mod_cast hVle
      · omega
    omega

/-- The T-shape wall of the specification's concrete scenario: cells (0,2),
(1,1), (1,2), (1,3) and (2,2) filled, tile freshly placed at (1,2). -/
def c6Wall : Wall :=
  [[false, false, true, false, false],
   [false, true, true, true, false],
   [false, false, true, false, false],
   [false, false, false, false, false],
   [false, false, false, false, false]]

/-- Witness for C6 at the T-shape wall. -/
theorem wall_tile_score_witness :
    calculate_wall_tile_score c6Wall 1 2
      = scoreSpec (runThrough (c6Wall.getD 1 []) 2)
          (runThrough (c6Wall.map (fun r2 => r2.getD 2 false)) 1)
    ∧ calculate_wall_tile_score c6Wall 1 2 ≤ 10 :=
  wall_tile_score_matches_spec c6Wall 1 2 (by unfold wallWF; decide)
    (by decide) (by decide) (by decide)

/-- Multiset counts add pointwise. -/
theorem msetCount_plus (a b : TileMultiset) :
    msetCount (msetPlus a b) = msetCount a + msetCount b := by
  simp [msetCount, msetPlus, ALL_COLORS]
  omega

/-- Overwriting one color replaces its contribution to the count. -/
theorem msetCount_set (m : TileMultiset) (c : TileColor) (n : Nat) :
    msetCount (msetSet m c n) + m c = msetCount m + n := by
  cases c <;> simp [msetCount, msetSet, ALL_COLORS] <;> omega

/-- Updating one list entry replaces its contribution to a mapped sum. -/
theorem sum_map_set {α : Type} (f : α → Nat) (d : α) :
    ∀ (l : List α) (i : Nat) (x : α), i < l.length →
      ((l.set i x).map f).sum + f (l.getD i d) = (l.map f).sum + f x := by
  intro l
  induction l with
  | nil => intro i x hi; simp at hi
  | cons y ys ih =>
    intro i x hi
    cases i with
    | zero => simp; omega
    | succ j =>
      have hj : j < ys.length := by simp at hi; omega
      have hstep := ih j x hj
      show ((y :: ys.set j x).map f).sum + f ((y :: ys).getD (j + 1) d)
          = ((y :: ys).map f).sum + f x
      simp only [List.map_cons, List.sum_cons, List.getD_cons_succ]
      omega

/-- Membership in `enumFrom` pins the index and the element. -/
theorem mem_enumFrom_facts {α : Type} (d : α) :
    ∀ (l : List α) (n i : Nat) (x : α), (i, x) ∈ l.enumFrom n →
      n ≤ i ∧ i - n < l.length ∧ l.getD (i - n) d = x := by
  intro l
  induction l with
  | nil => intro n i x h; simp [List.enumFrom] at h
  | cons y ys ih =>
    intro n i x h
    simp only [List.enumFrom, List.mem_cons, Prod.mk.injEq] at h
    rcases h with ⟨h1, h2⟩ | h
    · subst h1
      subst h2
      simp
    · obtain ⟨hn, hlen, hget⟩ := ih (n + 1) i x h
      refine ⟨by omega, by simp; omega, ?_⟩
      have hd : i - n = (i - (n + 1)) + 1 := by omega
      rw [hd, List.getD_cons_succ]
      exact hget

/-- Membership in `enum` pins the index and the element. -/
theorem mem_enum_facts {α : Type} (d : α) (l : List α) (i : Nat) (x : α)
    (h : (i, x) ∈ l.enum) : i < l.length ∧ l.getD i d = x := by
  have h2 := mem_enumFrom_facts d l 0 i x (by simpa [List.enum] using h)
  simpa using h2

/-- What membership in `list_legal_actions` guarantees: a positive source
count (with an in-range factory index) and a destination that is the floor
or a placement-legal pattern-line row below 5. -/
theorem legal_spec (ord : List TileColor) (s : State) (pid : Nat) (a : DraftAction)
    (h : a ∈ list_legal_actions ord s pid) :
    0 < count_tiles_in_source s a.source a.color
    ∧ (match a.source with
       | .factory i => i < s.factories.length
       | .center => True)
    ∧ (a.destination = Destination.floor
       ∨ ∃ row, a.destination = Destination.patternLine row ∧ row < 5
           ∧ can_place_in_pattern_line (s.players.getD pid PlayerBoard.new) row a.color
             = true) := by
  unfold list_legal_actions at h
  rcases List.mem_append.1 h with h | h
  · rcases List.mem_flatMap.1 h with ⟨⟨i, f⟩, hif, hsa⟩
    obtain ⟨hilen, hgetD⟩ := mem_enum_facts msetZero s.factories i f hif
    rcases List.mem_flatMap.1 hsa with ⟨color, _, hact⟩
    by_cases hpos : f color > 0
    case neg => rw [if_neg hpos] at hact; simp at hact
    rw [if_pos hpos] at hact
    unfold colorActions at hact
    rcases List.mem_append.1 hact with hact | hact
    · rcases List.mem_map.1 hact with ⟨row, hrow, rfl⟩
      rcases List.mem_filter.1 hrow with ⟨hr5, hcp⟩
      dsimp only
      refine ⟨?_, hilen, Or.inr ⟨row, rfl, List.mem_range.1 hr5, hcp⟩⟩
      unfold count_tiles_in_source
      dsimp only
      rw [hgetD]
      exact hpos
    · rw [List.mem_singleton.1 hact]
      dsimp only
      refine ⟨?_, hilen, Or.inl rfl⟩
      unfold count_tiles_in_source
      dsimp only
      rw [hgetD]
      exact hpos
  · rcases List.mem_flatMap.1 h with ⟨color, _, hact⟩
    by_cases hpos : s.center.tiles color > 0
    case neg => rw [if_neg hpos] at hact; simp at hact
    rw [if_pos hpos] at hact
    unfold colorActions at hact
    rcases List.mem_append.1 hact with hact | hact
    · rcases List.mem_map.1 hact with ⟨row, hrow, rfl⟩
      rcases List.mem_filter.1 hrow with ⟨hr5, hcp⟩
      exact ⟨hpos, trivial, Or.inr ⟨row, rfl, List.mem_range.1 hr5, hcp⟩⟩
    · rw [List.mem_singleton.1 hact]
      exact ⟨hpos, trivial, Or.inl rfl⟩

/-- The pattern-line invariant of the data model (src/model/player.rs):
`count_filled = 0` exactly when no color is set, and `count_filled` never
exceeds the capacity. -/
def patternLineInv (pl : PatternLine) : Prop :=
  (pl.count_filled = 0 ↔ pl.color = none) ∧ pl.count_filled ≤ pl.capacity

/-- Every pattern line of every player satisfies its invariant. -/
def linesInv (s : State) : Prop :=
  ∀ p ∈ s.players, ∀ pl ∈ p.pattern_lines, patternLineInv pl

/-- Shape facts every real `State` has by the Rust types: two players, five
pattern lines each, `u8` capacities. -/
def boardsWF (s : State) : Prop :=
  s.players.length = 2
  ∧ ∀ p ∈ s.players,
      p.pattern_lines.length = 5 ∧ ∀ pl ∈ p.pattern_lines, pl.capacity ≤ 255

/-- Tile placement adds exactly `tile_count` tiles to the board and keeps
the pattern-line invariant, given a legal destination. -/
theorem applyPlaceTiles_spec (a : DraftAction) (n : Nat) (p : PlayerBoard)
    (hlines5 : p.pattern_lines.length = 5)
    (hinv : ∀ pl ∈ p.pattern_lines, patternLineInv pl)
    (hcap : ∀ pl ∈ p.pattern_lines, pl.capacity ≤ 255)
    (hn : 0 < n)
    (hdest : a.destination = Destination.floor
      ∨ ∃ row, a.destination = Destination.patternLine row ∧ row < 5
          ∧ can_place_in_pattern_line p row a.color = true) :
    playerTiles (applyPlaceTiles a n p) = playerTiles p + n
    ∧ ∀ pl ∈ (applyPlaceTiles a n p).pattern_lines, patternLineInv pl := by
  rcases hdest with hd | ⟨row, hd, hrow5, hcp⟩
  · unfold applyPlaceTiles
    rw [hd]
    unfold playerTiles
    dsimp only
    constructor
    · simp only [List.length_append, List.length_replicate]
      omega
    · intro pl hpl
      exact hinv pl hpl
  · have hrowlen : row < p.pattern_lines.length := by omega
    have hmem : p.pattern_lines.getD row (PatternLine.new 0) ∈ p.pattern_lines :=
      getD_prop (fun x => x ∈ p.pattern_lines) p.pattern_lines row (PatternLine.new 0)
        (fun x hx => hx) hrowlen
    obtain ⟨hiff, hle⟩ := hinv _ hmem
    have hc255 := hcap _ hmem
    have hne : ¬ (p.pattern_lines.getD row (PatternLine.new 0)).count_filled
        = (p.pattern_lines.getD row (PatternLine.new 0)).capacity := by
      intro he
      unfold can_place_in_pattern_line at hcp
      rw [if_pos he] at hcp
      exact absurd hcp (by simp)
    have hmod1 : (p.pattern_lines.getD row (PatternLine.new 0)).count_filled % 256
        = (p.pattern_lines.getD row (PatternLine.new 0)).count_filled :=
      Nat.mod_eq_of_lt (by omega)
    have hspace : ((p.pattern_lines.getD row (PatternLine.new 0)).capacity + 256
          - (p.pattern_lines.getD row (PatternLine.new 0)).count_filled % 256) % 256
        = (p.pattern_lines.getD row (PatternLine.new 0)).capacity
          - (p.pattern_lines.getD row (PatternLine.new 0)).count_filled := by
      rw [hmod1]
      omega
    have hmod2 : ((p.pattern_lines.getD row (PatternLine.new 0)).count_filled
          + min n ((p.pattern_lines.getD row (PatternLine.new 0)).capacity
            - (p.pattern_lines.getD row (PatternLine.new 0)).count_filled)) % 256
        = (p.pattern_lines.getD row (PatternLine.new 0)).count_filled
          + min n ((p.pattern_lines.getD row (PatternLine.new 0)).capacity
            - (p.pattern_lines.getD row (PatternLine.new 0)).count_filled) :=
      Nat.mod_eq_of_lt (by omega)
    unfold applyPlaceTiles
    rw [hd]
    dsimp only
    rw [hspace, hmod2]
    have hsum : ((p.pattern_lines.set row
          { capacity := (p.pattern_lines.getD row (PatternLine.new 0)).capacity
            color := if (p.pattern_lines.getD row (PatternLine.new 0)).count_filled
                + min n ((p.pattern_lines.getD row (PatternLine.new 0)).capacity
                  - (p.pattern_lines.getD row (PatternLine.new 0)).count_filled) > 0 then
                some a.color
              else (p.pattern_lines.getD row (PatternLine.new 0)).color
            count_filled := (p.pattern_lines.getD row (PatternLine.new 0)).count_filled
              + min n ((p.pattern_lines.getD row (PatternLine.new 0)).capacity
                - (p.pattern_lines.getD row (PatternLine.new 0)).count_filled) }).map
          (fun pl => pl.count_filled)).sum
          + (p.pattern_lines.getD row (PatternLine.new 0)).count_filled
        = (p.pattern_lines.map (fun pl => pl.count_filled)).sum
          + ((p.pattern_lines.getD row (PatternLine.new 0)).count_filled
            + min n ((p.pattern_lines.getD row (PatternLine.new 0)).capacity
              - (p.pattern_lines.getD row (PatternLine.new 0)).count_filled)) :=
      sum_map_set (fun pl => pl.count_filled) (PatternLine.new 0) p.pattern_lines row _
        hrowlen
    constructor
    · unfold playerTiles
      dsimp only
      simp only [List.length_append, List.length_replicate]
      omega
    · intro pl hpl
      rcases List.mem_or_eq_of_mem_set hpl with hmem2 | rfl
      · exact hinv pl hmem2
      · have hpos : 0 < (p.pattern_lines.getD row (PatternLine.new 0)).count_filled
            + min n ((p.pattern_lines.getD row (PatternLine.new 0)).capacity
              - (p.pattern_lines.getD row (PatternLine.new 0)).count_filled) := by
          omega
        constructor
        · constructor
          · intro he
            dsimp only at he
            omega
          · intro he
            dsimp only at he
            rw [if_pos hpos] at he
            exact absurd he (by simp)
        · dsimp only
          omega

/-- The token step changes nothing placement reads, so `applyPlace` has the
same accounting as `applyPlaceTiles`. -/
theorem applyPlace_spec (a : DraftAction) (tk : Bool) (n : Nat) (p0 : PlayerBoard)
    (hlines5 : p0.pattern_lines.length = 5)
    (hinv : ∀ pl ∈ p0.pattern_lines, patternLineInv pl)
    (hcap : ∀ pl ∈ p0.pattern_lines, pl.capacity ≤ 255)
    (hn : 0 < n)
    (hdest : a.destination = Destination.floor
      ∨ ∃ row, a.destination = Destination.patternLine row ∧ row < 5
          ∧ can_place_in_pattern_line p0 row a.color = true) :
    playerTiles (applyPlace a tk n p0) = playerTiles p0 + n
    ∧ ∀ pl ∈ (applyPlace a tk n p0).pattern_lines, patternLineInv pl := by
  cases tk
  · exact applyPlaceTiles_spec a n p0 hlines5 hinv hcap hn hdest
  · exact applyPlaceTiles_spec a n
      { p0 with floor_line := { p0.floor_line with has_first_player_token := true } }
      hlines5 hinv hcap hn hdest

/-- The mutation phase of `apply_action` preserves the tile total and the
pattern-line invariant when fed a legal action's source count. -/
theorem applyMutate_spec (s : State) (a : DraftAction)
    (hlen : s.active_player_id < s.players.length)
    (hb5 : (s.players.getD s.active_player_id PlayerBoard.new).pattern_lines.length = 5)
    (hbcap : ∀ pl ∈ (s.players.getD s.active_player_id PlayerBoard.new).pattern_lines,
      pl.capacity ≤ 255)
    (hbinv : ∀ pl ∈ (s.players.getD s.active_player_id PlayerBoard.new).pattern_lines,
      patternLineInv pl)
    (hpos : 0 < count_tiles_in_source s a.source a.color)
    (hsrc : match a.source with
      | .factory i => i < s.factories.length
      | .center => True)
    (hdest : a.destination = Destination.floor
      ∨ ∃ row, a.destination = Destination.patternLine row ∧ row < 5
          ∧ can_place_in_pattern_line (s.players.getD s.active_player_id PlayerBoard.new)
              row a.color = true)
    (hinv : linesInv s) :
    tileTotal (applyMutate s a (count_tiles_in_source s a.source a.color)) = tileTotal s
    ∧ linesInv (applyMutate s a (count_tiles_in_source s a.source a.color)) := by
  constructor
  · unfold applyMutate tileTotal
    cases hs : a.source with
    | factory i =>
      rw [hs] at hpos hsrc
      have hi : i < s.factories.length := hsrc
      obtain ⟨htiles, -⟩ := applyPlace_spec a
        (decide (ActionSource.factory i = ActionSource.center)
          && s.center.has_first_player_token)
        (count_tiles_in_source s (ActionSource.factory i) a.color)
        (s.players.getD s.active_player_id PlayerBoard.new) hb5 hbinv hbcap hpos hdest
      have hpsum := sum_map_set playerTiles PlayerBoard.new s.players s.active_player_id
        (applyPlace a
          (decide (ActionSource.factory i = ActionSource.center)
            && s.center.has_first_player_token)
          (count_tiles_in_source s (ActionSource.factory i) a.color)
          (s.players.getD s.active_player_id PlayerBoard.new)) hlen
      have hfac := sum_map_set msetCount msetZero s.factories i msetZero hi
      have hrem := msetCount_set (s.factories.getD i msetZero) a.color 0
      have hcen := msetCount_plus s.center.tiles
        (msetSet (s.factories.getD i msetZero) a.color 0)
      have hcnt : count_tiles_in_source s (ActionSource.factory i) a.color
          = (s.factories.getD i msetZero) a.color := rfl
      have hzero : msetCount msetZero = 0 := rfl
      dsimp only
      omega
    | center =>
      rw [hs] at hpos
      obtain ⟨htiles, -⟩ := applyPlace_spec a
        (decide (ActionSource.center = ActionSource.center)
          && s.center.has_first_player_token)
        (count_tiles_in_source s ActionSource.center a.color)
        (s.players.getD s.active_player_id PlayerBoard.new) hb5 hbinv hbcap hpos hdest
      have hpsum := sum_map_set playerTiles PlayerBoard.new s.players s.active_player_id
        (applyPlace a
          (decide (ActionSource.center = ActionSource.center)
            && s.center.has_first_player_token)
          (count_tiles_in_source s ActionSource.center a.color)
          (s.players.getD s.active_player_id PlayerBoard.new)) hlen
      have hrem := msetCount_set s.center.tiles a.color 0
      have hcnt : count_tiles_in_source s ActionSource.center a.color
          = s.center.tiles a.color := rfl
      dsimp only
      omega
  · intro q hq
    unfold applyMutate at hq
    dsimp only at hq
    rcases List.mem_or_eq_of_mem_set hq with hq | rfl
    · exact hinv q hq
    · exact (applyPlace_spec a _ _ _ hb5 hbinv hbcap hpos hdest).2

/-- Validation of `apply_action` succeeds on what `list_legal_actions`
guarantees, and the result is exactly the mutation phase. -/
theorem apply_ok (s : State) (a : DraftAction)
    (hpos : 0 < count_tiles_in_source s a.source a.color)
    (hsrc : match a.source with
      | .factory i => i < s.factories.length
      | .center => True)
    (hdest : a.destination = Destination.floor
      ∨ ∃ row, a.destination = Destination.patternLine row ∧ row < 5
          ∧ can_place_in_pattern_line (s.players.getD s.active_player_id PlayerBoard.new)
              row a.color = true) :
    apply_action s a
      = .ok (applyMutate s a (count_tiles_in_source s a.source a.color)) := by
  have hval : validateDestination (s.players.getD s.active_player_id PlayerBoard.new) a
      = none := by
    rcases hdest with hd | ⟨row, hd, hr5, hcp⟩
    · unfold validateDestination
      rw [hd]
    · unfold validateDestination
      rw [hd]
      dsimp only
      rw [if_neg (by omega : ¬ row ≥ 5), if_pos hcp]
  unfold apply_action
  cases hs : a.source with
  | factory i =>
    rw [hs] at hpos hsrc
    have hi : i < s.factories.length := hsrc
    have hcnt : count_tiles_in_source s (ActionSource.factory i) a.color
        = (s.factories.getD i msetZero) a.color := rfl
    rw [hcnt] at hpos
    dsimp only
    rw [if_neg (by omega : ¬ i ≥ s.factories.length)]
    dsimp only
    rw [if_neg (by omega : ¬ (s.factories.getD i msetZero) a.color = 0)]
    rw [hval, hcnt]
  | center =>
    rw [hs] at hpos
    have hcnt : count_tiles_in_source s ActionSource.center a.color
        = s.center.tiles a.color := rfl
    rw [hcnt] at hpos
    dsimp only
    rw [if_neg (by omega : ¬ s.center.tiles a.color = 0)]
    rw [hval, hcnt]

/-- C1: every action enumerated by `list_legal_actions` for the active seat
applies without a validation error, and the resulting state again conserves
the 100 tiles and satisfies every pattern line's invariant. -/
theorem legal_actions_apply_ok (ord : List TileColor) (s : State) (p : Nat)
    (a : DraftAction)
    (hp : p = s.active_player_id) (hp2 : p < 2)
    (hwf : boardsWF s) (hinv : linesInv s)
    (hmem : a ∈ list_legal_actions ord s p)
    (hcons : tileTotal s = 100) :
    match apply_action s a with
    | .ok s2 => tileTotal s2 = 100 ∧ linesInv s2
    | .error _ => False := by
  obtain ⟨hpos, hsrc, hdest⟩ := legal_spec ord s p a hmem
  subst hp
  have hlen : s.active_player_id < s.players.length := by rw [hwf.1]; exact hp2
  have hb := getD_prop
    (fun q => q.pattern_lines.length = 5 ∧ ∀ pl ∈ q.pattern_lines, pl.capacity ≤ 255)
    s.players s.active_player_id PlayerBoard.new hwf.2 hlen
  have hbinv := getD_prop (fun q => ∀ pl ∈ q.pattern_lines, patternLineInv pl)
    s.players s.active_player_id PlayerBoard.new (fun q hq pl hpl => hinv q hq pl hpl) hlen
  rw [apply_ok s a hpos hsrc hdest]
  obtain ⟨h1, h2⟩ :=
    applyMutate_spec s a hlen hb.1 hb.2 hbinv hpos hsrc hdest hinv
  exact ⟨h1.trans hcons, h2⟩

/-- A conserving two-board state: 2 Blue tiles in factory 0 and the other
98 tiles in the bag. -/
def c1State : State :=
  { active_player_id := 0
    round_number := 1
    bag := fun c => match c with | .blue => 18 | _ => 20
    lid := msetZero
    factories := [fun c => if c = TileColor.blue then 2 else 0,
      msetZero, msetZero, msetZero, msetZero]
    center := { tiles := msetZero, has_first_player_token := true }
    players := [PlayerBoard.new, PlayerBoard.new] }

/-- Witness for C1: taking the 2 Blue tiles from factory 0 into pattern
line 1. -/
theorem legal_actions_apply_ok_witness :
    match apply_action c1State ⟨.factory 0, .blue, .patternLine 1⟩ with
    | .ok s2 => tileTotal s2 = 100 ∧ linesInv s2
    | .error _ => False :=
  legal_actions_apply_ok ALL_COLORS c1State 0 ⟨.factory 0, .blue, .patternLine 1⟩
    rfl (by decide) (by unfold boardsWF; decide)
    (by unfold linesInv patternLineInv; decide) (by decide) (by decide)

/-- Decidable equality on `Except`, for evaluating results on concrete
inputs. -/
def exceptDecEq {ε : Type} {α : Type} [DecidableEq ε] [DecidableEq α] :
    (a b : Except ε α) → Decidable (a = b)
  | .error a, .error b =>
    if h : a = b then .isTrue (congrArg Except.error h)
    else .isFalse (fun hc => h (Except.error.inj hc))
  | .error _, .ok _ => .isFalse (fun hc => Except.noConfusion hc)
  | .ok _, .error _ => .isFalse (fun hc => Except.noConfusion hc)
  | .ok a, .ok b =>
    if h : a = b then .isTrue (congrArg Except.ok h)
    else .isFalse (fun hc => h (Except.ok.inj hc))

instance {ε : Type} {α : Type} [DecidableEq ε] [DecidableEq α] :
    DecidableEq (Except ε α) := exceptDecEq

/-- The zero stream, standing in for any concrete random stream. -/
def zeroStream : Nat → Nat → Nat := fun _ _ => 0

/-- A board whose wall already holds Blue in row 0, blocking pattern
line 0 for Blue. -/
def c7Board : PlayerBoard :=
  { PlayerBoard.new with wall := wallSet emptyWall 0 0 true }

/-- A state whose only table tile is one Blue in the center: every
remaining Blue destination ties at expected value 0. -/
def c7State : State :=
  { active_player_id := 0
    round_number := 1
    bag := msetZero
    lid := msetZero
    factories := [msetZero, msetZero, msetZero, msetZero, msetZero]
    center := { tiles := fun c => if c = TileColor.blue then 1 else 0
                has_first_player_token := false }
    players := [c7Board, PlayerBoard.new] }

/-- Evaluation parameters: one rollout per action, no shortlist. -/
def c7Params : EvaluatorParams :=
  { time_budget_ms := 250
    rollouts_per_action := 1
    evaluator_seed := 0
    shortlist_size := 0
    rollout_config := { active_player_policy := .allGreedy, opponent_policy := .allGreedy } }

/-- The user's pick: pattern line 2, not the evaluator's first-best. -/
def c7UserAction : DraftAction := ⟨.center, .blue, .patternLine 2⟩

/-- The best-move evaluation at the tie state. -/
def c7BestResult : Option (Except EvaluatorError EvaluationResult) :=
  evaluate_best_move zeroStream ALL_COLORS zeroStream c7State 0 c7Params

/-- Grading the user's pick against that evaluation. -/
def c7Graded : Option (Except EvaluatorError EvaluationResult) :=
  match c7BestResult with
  | some (Except.ok br) =>
    grade_user_action zeroStream ALL_COLORS zeroStream c7State 0 c7UserAction c7Params br
  | _ => none

/-- C7 (counter-evidence): at the tie state the evaluator's best action is
pattern line 1, the user's pattern-line-2 pick is a different candidate,
yet `grade_user_action` reports `delta_ev = 0` — so `delta_ev = 0` does not
imply that the user picked the best action. -/
theorem grade_delta_zero_for_non_best :
    c7BestResult.map (Except.map (fun br => br.best_action))
      = some (.ok ⟨.center, .blue, .patternLine 1⟩)
    ∧ c7Graded.map (Except.map (fun g => g.delta_ev)) = some (.ok (some 0))
    ∧ c7UserAction ≠ ⟨.center, .blue, .patternLine 1⟩ :=
  ⟨by with_unfolding_all decide, by with_unfolding_all decide, by decide⟩

/-- A flat map over a duplicate-free index list whose blocks are
duplicate-free and pairwise disjoint is duplicate-free. -/
theorem nodup_flatMap_of {α β : Type} (l : List α) (f : α → List β)
    (hl : l.Nodup) (hf : ∀ a ∈ l, (f a).Nodup)
    (hdisj : ∀ a1 ∈ l, ∀ a2 ∈ l, a1 ≠ a2 → ∀ b ∈ f a1, b ∉ f a2) :
    (l.flatMap f).Nodup := by
  induction l with
  | nil => simp
  | cons a rest ih =>
    rw [List.flatMap_cons]
    have hl' := List.nodup_cons.1 hl
    refine List.Nodup.append (hf a (List.mem_cons_self a rest)) ?_ ?_
    · exact ih hl'.2 (fun x hx => hf x (List.mem_cons_of_mem a hx))
        (fun a1 h1 a2 h2 hne =>
          hdisj a1 (List.mem_cons_of_mem a h1) a2 (List.mem_cons_of_mem a h2) hne)
    · intro b hb1 hb2
      obtain ⟨a2, ha2, hb2'⟩ := List.mem_flatMap.1 hb2
      exact hdisj a (List.mem_cons_self a rest) a2 (List.mem_cons_of_mem a ha2)
        (fun h => hl'.1 (h ▸ ha2)) b hb1 hb2'

/-- Every action produced by `colorActions` carries the given source and
color. -/
theorem mem_colorActions (player : PlayerBoard) (src : ActionSource) (color : TileColor)
    (a : DraftAction) (h : a ∈ colorActions player src color) :
    a.source = src ∧ a.color = color := by
  unfold colorActions at h
  rcases List.mem_append.1 h with h | h
  · obtain ⟨row, _, rfl⟩ := List.mem_map.1 h
    exact ⟨rfl, rfl⟩
  · rw [List.mem_singleton] at h
    subst h
    exact ⟨rfl, rfl⟩

/-- `colorActions` never repeats an action: rows are distinct and the floor
action has a different destination. -/
theorem colorActions_nodup (player : PlayerBoard) (src : ActionSource) (color : TileColor) :
    (colorActions player src color).Nodup := by
  unfold colorActions
  refine List.Nodup.append ?_ (List.nodup_singleton _) ?_
  · refine List.Nodup.map ?_ (List.Nodup.filter _ (List.nodup_range 5))
    intro x y hxy
    have := congrArg DraftAction.destination hxy
    simpa using this
  · intro b hb1 hb2
    obtain ⟨row, _, rfl⟩ := List.mem_map.1 hb1
    rw [List.mem_singleton] at hb2
    exact Destination.noConfusion (congrArg DraftAction.destination hb2)

/-- Every action produced by `sourceActions` carries the given source. -/
theorem mem_sourceActions (player : PlayerBoard) (src : ActionSource) (m : TileMultiset)
    (ord : List TileColor) (a : DraftAction) (h : a ∈ sourceActions player src m ord) :
    a.source = src := by
  unfold sourceActions at h
  obtain ⟨c, _, hc⟩ := List.mem_flatMap.1 h
  by_cases hm : m c > 0
  · rw [if_pos hm] at hc
    exact (mem_colorActions player src c a hc).1
  · rw [if_neg hm] at hc
    cases hc

/-- `sourceActions` never repeats an action when the iteration order has no
duplicate colors. -/
theorem sourceActions_nodup (player : PlayerBoard) (src : ActionSource) (m : TileMultiset)
    (ord : List TileColor) (hord : ord.Nodup) :
    (sourceActions player src m ord).Nodup := by
  unfold sourceActions
  refine nodup_flatMap_of ord _ hord ?_ ?_
  · intro c _
    by_cases hm : m c > 0
    · rw [if_pos hm]
      exact colorActions_nodup player src c
    · rw [if_neg hm]
      exact List.nodup_nil
  · intro c1 _ c2 _ hne b hb1 hb2
    have h1 : b.color = c1 := by
      by_cases hm : m c1 > 0
      · rw [if_pos hm] at hb1
        exact (mem_colorActions player src c1 b hb1).2
      · rw [if_neg hm] at hb1
        cases hb1
    have h2 : b.color = c2 := by
      by_cases hm : m c2 > 0
      · rw [if_pos hm] at hb2
        exact (mem_colorActions player src c2 b hb2).2
      · rw [if_neg hm] at hb2
        cases hb2
    exact hne (h1 ▸ h2)

/-- The legal-action list never repeats an action when the map iteration
order has no duplicate colors: factory blocks are separated by their
factory index, and the center block by its source. -/
theorem legal_nodup (ord : List TileColor) (s : State) (pid : Nat) (hord : ord.Nodup) :
    (list_legal_actions ord s pid).Nodup := by
  unfold list_legal_actions
  refine List.Nodup.append ?_
    (sourceActions_nodup _ ActionSource.center s.center.tiles ord hord) ?_
  · refine nodup_flatMap_of _ _ ?_ ?_ ?_
    · have hm : (s.factories.enum.map Prod.fst).Nodup := by
        rw [List.enum_map_fst]
        exact List.nodup_range s.factories.length
      exact hm.of_map
    · intro p _
      exact sourceActions_nodup _ _ p.2 ord hord
    · intro p1 h1 p2 h2 hne b hb1 hb2
      obtain ⟨i1, f1⟩ := p1
      obtain ⟨i2, f2⟩ := p2
      have e1 := mem_sourceActions _ _ _ _ b hb1
      have e2 := mem_sourceActions _ _ _ _ b hb2
      rw [e1] at e2
      have hi : i1 = i2 := ActionSource.factory.inj e2
      subst hi
      have g1 := (mem_enum_facts msetZero s.factories i1 f1 h1).2
      have g2 := (mem_enum_facts msetZero s.factories i1 f2 h2).2
      rw [g1] at g2
      exact hne (by rw [g2])
  · intro b hb1 hb2
    obtain ⟨p, _, hb1'⟩ := List.mem_flatMap.1 hb1
    have e1 := mem_sourceActions _ _ _ _ b hb1'
    have e2 := mem_sourceActions _ _ _ _ b hb2
    rw [e1] at e2
    exact ActionSource.noConfusion e2

/-- The shortlist never repeats an action when the legal list does not:
scoring pairs each action with a value, stable sorting permutes, taking is
a sublist, and projecting back is injective on score pairs. -/
theorem shortlist_nodup (s : State) (legal : List DraftAction) (n : Nat)
    (h : legal.Nodup) : (shortlist_actions s legal n).Nodup := by
  unfold shortlist_actions
  have hscored : (legal.map (fun a => (a, score_action_heuristic s a))).Nodup := by
    refine List.Nodup.map ?_ h
    intro x y hxy
    simpa using congrArg Prod.fst hxy
  have hsorted :
      ((legal.map (fun a => (a, score_action_heuristic s a))).insertionSort
        (fun a b => b.2 ≤ a.2)).Nodup :=
    (List.perm_insertionSort _ _).nodup_iff.mpr hscored
  have htake := (List.take_sublist n _).nodup hsorted
  refine List.Nodup.map_on ?_ htake
  intro x hx y hy hxy
  have hx' := (List.perm_insertionSort (fun a b : DraftAction × Int => b.2 ≤ a.2) _).mem_iff.1
    (List.mem_of_mem_take hx)
  have hy' := (List.perm_insertionSort (fun a b : DraftAction × Int => b.2 ≤ a.2) _).mem_iff.1
    (List.mem_of_mem_take hy)
  obtain ⟨a, _, rfl⟩ := List.mem_map.1 hx'
  obtain ⟨b, _, rfl⟩ := List.mem_map.1 hy'
  simp only at hxy
  rw [hxy]

/-- Invariant of the candidate loop: as long as the processed and the
pending actions together are duplicate-free, the running best EV is the
`ev` recorded for the best action in the running result list, and this
carries over to the loop's final result list and final best. -/
theorem evalCandidates_find_best (std : Nat → Nat → Nat) (ord : List TileColor)
    (refills : Nat → Nat → Nat) (s : State) (pid : Nat) (params : EvaluatorParams) :
    ∀ (cands : List DraftAction) (k : Nat) (results : List CandidateAction)
      (best : Option (DraftAction × Rat × ActionFeatures))
      (res : List CandidateAction × Option (DraftAction × Rat × ActionFeatures) × Nat),
      ((results.map (fun c => c.action)) ++ cands).Nodup →
      (match best with
        | none => results = []
        | some (ba, bev, _) =>
          ∃ e, results.find? (fun c => decide (c.action = ba)) = some e ∧ e.ev = bev) →
      evalCandidates std ord refills s pid params cands k results best
        = some (.ok res) →
      (match res.2.1 with
        | none => True
        | some (ba, bev, _) =>
          ∃ e, res.1.find? (fun c => decide (c.action = ba)) = some e ∧ e.ev = bev) := by
  intro cands
  induction cands with
  | nil =>
    intro k results best res hnd hbase hrun
    rw [evalCandidates] at hrun
    have hres : (results, best, k) = res := Except.ok.inj (Option.some.inj hrun)
    cases hres
    cases best with
    | none => exact trivial
    | some b =>
      obtain ⟨ba, bev, bf⟩ := b
      exact hbase
  | cons action rest ih =>
    intro k results best res hnd hbase hrun
    rw [evalCandidates] at hrun
    cases hA : apply_action s action with
    | error e =>
      rw [hA] at hrun
      exact absurd hrun (by simp)
    | ok state_after =>
      rw [hA] at hrun
      dsimp only at hrun
      cases hR : evalRollouts std ord refills state_after pid params
          (state_after.players.getD pid PlayerBoard.new) params.rollouts_per_action k
          RolloutTally.zero with
      | none =>
        rw [hR] at hrun
        exact absurd hrun (by simp)
      | some exv =>
        cases exv with
        | error e =>
          rw [hR] at hrun
          exact absurd hrun (by simp)
        | ok p =>
          obtain ⟨t, k'⟩ := p
          rw [hR] at hrun
          dsimp only at hrun
          refine ih k' _ _ res ?_ ?_ hrun
          · have hnd' := hnd
            rw [List.append_cons] at hnd'
            simpa using hnd'
          · cases best with
            | none =>
              rw [hbase]
              dsimp only
              refine ⟨⟨action, mean t.utilities, t.utilities.length⟩, ?_, rfl⟩
              simp [List.find?]
            | some b =>
              obtain ⟨ba, bev, bf⟩ := b
              dsimp only at hbase ⊢
              obtain ⟨e, hfe, hev⟩ := hbase
              have hnotmem : action ∉ results.map (fun c => c.action) := by
                have hd := (List.nodup_append.1 hnd).2.2
                intro hmem
                exact hd hmem (List.mem_cons_self action rest)
              by_cases hgt : mean t.utilities > bev
              · rw [if_pos hgt]
                dsimp only
                refine ⟨⟨action, mean t.utilities, t.utilities.length⟩, ?_, rfl⟩
                rw [List.find?_append]
                have hnone : results.find? (fun c => decide (c.action = action)) = none := by
                  rw [List.find?_eq_none]
                  intro x hx hpx
                  exact hnotmem (List.mem_map.2 ⟨x, hx, of_decide_eq_true hpx⟩)
                rw [hnone]
                simp [List.find?]
              · rw [if_neg hgt]
                dsimp only
                refine ⟨e, ?_, hev⟩
                rw [List.find?_append, hfe]
                rfl

/-- The candidate loop as `evaluate_best_move` starts it: a duplicate-free
candidate list guarantees that the returned best action is recorded in the
returned candidate list with exactly the best EV. -/
theorem evalCandidates_top_find (std : Nat → Nat → Nat) (ord : List TileColor)
    (refills : Nat → Nat → Nat) (s : State) (pid : Nat) (params : EvaluatorParams)
    (cands : List DraftAction) (hnd : cands.Nodup) (results : List CandidateAction)
    (ba : DraftAction) (bev : Rat) (bf : ActionFeatures) (k : Nat)
    (hrun : evalCandidates std ord refills s pid params cands 0 [] none
      = some (.ok (results, some (ba, bev, bf), k))) :
    ∃ e, results.find? (fun c => decide (c.action = ba)) = some e ∧ e.ev = bev :=
  evalCandidates_find_best std ord refills s pid params cands 0 [] none
    (results, some (ba, bev, bf), k) (by simpa using hnd) rfl hrun

/-- C7 (amended): whenever `evaluate_best_move` returns a result and the
iteration order has no duplicate colors, grading the returned best action
itself yields `delta_ev = 0` in every non-error outcome — the best action's
EV is reused from the candidate list, so the delta is `best_ev - best_ev`.
The converse direction of the claim fails on EV ties
(`grade_delta_zero_for_non_best`). -/
theorem grade_of_best_action_delta_zero (std refills refills2 : Nat → Nat → Nat)
    (ord : List TileColor) (s : State) (player_id : Nat) (params : EvaluatorParams)
    (br : EvaluationResult) (hord : ord.Nodup)
    (hbr : evaluate_best_move std ord refills s player_id params = some (.ok br)) :
    (grade_user_action std ord refills2 s player_id br.best_action params br).all
      (fun ex => match ex with
        | .ok g => decide (g.delta_ev = some 0)
        | .error _ => true) = true := by
  unfold evaluate_best_move at hbr
  by_cases hpid : player_id > 1
  · rw [if_pos hpid] at hbr
    simp at hbr
  rw [if_neg hpid] at hbr
  have hndL : (list_legal_actions ord s player_id).Nodup := legal_nodup ord s player_id hord
  cases hL : list_legal_actions ord s player_id with
  | nil =>
    rw [hL] at hbr
    simp at hbr
  | cons a0 tail =>
    rw [hL] at hbr hndL
    dsimp only at hbr
    have hndC : (if params.shortlist_size > 0 ∧ (a0 :: tail).length > params.shortlist_size
        then shortlist_actions s (a0 :: tail) params.shortlist_size
        else a0 :: tail).Nodup := by
      split
      · exact shortlist_nodup s (a0 :: tail) params.shortlist_size hndL
      · exact hndL
    cases hEC : evalCandidates std ord refills s player_id params
        (if params.shortlist_size > 0 ∧ (a0 :: tail).length > params.shortlist_size
          then shortlist_actions s (a0 :: tail) params.shortlist_size
          else a0 :: tail) 0 [] none with
    | none =>
      rw [hEC] at hbr
      simp at hbr
    | some exv =>
      cases exv with
      | error e =>
        rw [hEC] at hbr
        simp at hbr
      | ok trip =>
        obtain ⟨results, best, k⟩ := trip
        rw [hEC] at hbr
        dsimp only at hbr
        cases best with
        | none => simp at hbr
        | some b =>
          obtain ⟨ba, bev, bf⟩ := b
          dsimp only at hbr
          obtain ⟨e, hfe, hev⟩ :=
            evalCandidates_top_find std ord refills s player_id params _ hndC
              results ba bev bf k hEC
          have hR := Except.ok.inj (Option.some.inj hbr)
          cases hR
          unfold grade_user_action
          rw [hL]
          dsimp only
          by_cases hmem : ba ∈ a0 :: tail
          · rw [if_pos hmem]
            cases hA : apply_action s ba with
            | error e2 => rfl
            | ok sa =>
              dsimp only
              cases hG : gradeRollouts std ord refills2 sa player_id params
                  (sa.players.getD player_id PlayerBoard.new) params.rollouts_per_action 0
                  RolloutTally.zero with
              | none => rfl
              | some gex =>
                cases gex with
                | error e3 => rfl
                | ok t =>
                  dsimp only [Option.bind_eq_bind, Option.some_bind]
                  rw [hfe]
                  simp [Option.all, hev]
          · rw [if_neg hmem]
            rfl

/-- The evaluation result `evaluate_best_move` computes at the tie state. -/
def c7Best : EvaluationResult :=
  { best_action := ⟨.center, .blue, .patternLine 1⟩
    best_action_ev := 0
    user_action_ev := none
    delta_ev := none
    metadata :=
      { elapsed_ms := 0, rollouts_run := 5, candidates_evaluated := 5,
        total_legal_actions := 5, seed := 0, completed_within_budget := true }
    candidates := some
      [⟨⟨.center, .blue, .patternLine 1⟩, 0, 1⟩,
       ⟨⟨.center, .blue, .patternLine 2⟩, 0, 1⟩,
       ⟨⟨.center, .blue, .patternLine 3⟩, 0, 1⟩,
       ⟨⟨.center, .blue, .patternLine 4⟩, 0, 1⟩,
       ⟨⟨.center, .blue, .floor⟩, 0, 1⟩]
    best_features :=
      { expected_floor_penalty := 0, expected_completions := 0,
        expected_adjacency_points := 0, expected_tiles_to_floor := 0,
        takes_first_player_token := false, tiles_acquired := 1 }
    user_features := none
    feedback := none
    grade := none }

theorem grade_of_best_action_delta_zero_witness :
    (grade_user_action zeroStream ALL_COLORS zeroStream c7State 0 c7Best.best_action
        c7Params c7Best).all
      (fun ex => match ex with
        | .ok g => decide (g.delta_ev = some 0)
        | .error _ => true) = true :=
  grade_of_best_action_delta_zero zeroStream zeroStream zeroStream ALL_COLORS c7State 0
    c7Params c7Best (by decide) (by with_unfolding_all decide)

end AzulEngine
